import Mathlib

/-!
# Verification of the CheeseMiss aggregation engine

Shallow embedding of the core of the CheeseMiss repository
(`src/app/api/news/route.ts`, `src/app/api/tldr/route.ts`, and the RSS
classifier) together with proofs about the claims of the specification.

Conventions:
* JavaScript `Map` objects are modelled as insertion-ordered association
  lists `List (String × α)`; `jsSet`/`jsHas`/`jsGet` mirror
  `Map.set`/`Map.has`/`Map.get`.
* Effectful provider calls are modelled by passing their outcome
  (`Except String (List NewsArticle)`: an exception or a result list)
  as an explicit argument, and `Date.now()` as an explicit `Nat`
  (milliseconds) or `Nat` (seconds) argument.
* JavaScript falsiness of strings (`'' || x`) is modelled explicitly.
-/

namespace CheeseMiss

/-! ## Generic string helpers -/

/-- Leading-segment test on character lists. -/
def leadsWith : List Char → List Char → Bool
  | [], _ => true
  | _ :: _, [] => false
  | a :: as, b :: bs => a == b && leadsWith as bs

/-- Substring containment on character lists (`String.prototype.includes`). -/
def occursIn (needle : List Char) : List Char → Bool
  | [] => leadsWith needle []
  | h :: t => leadsWith needle (h :: t) || occursIn needle t

/-- `hay.includes(needle)` for strings. -/
def containsStr (hay needle : String) : Bool :=
  occursIn needle.toList hay.toList

/-- The whitespace class used by the JavaScript `\s` regex class and
`String.prototype.trim`, restricted to the characters that occur in the data
handled by the engine. -/
def isWsChar (c : Char) : Bool :=
  c == ' ' || c == '\t' || c == '\n' || c == '\r' || c == '\x0c' || c == '\x0b'

/-- `s.trim()`: strip leading and trailing whitespace. -/
def jsTrim (s : String) : String :=
  let cs := s.toList
  let cs := cs.dropWhile isWsChar
  let cs := (cs.reverse.dropWhile isWsChar).reverse
  String.mk cs

/-- `s.toLowerCase()` (the engine's inputs are ASCII, where
`Char.toLower` agrees with JavaScript). -/
def jsLower (s : String) : String :=
  String.mk (s.toList.map Char.toLower)

/-- Split a character list into its maximal whitespace-free words
(accumulator-based so that it reduces definitionally). -/
def splitWsAux : List Char → List Char → List (List Char)
  | [], acc => if acc.isEmpty then [] else [acc.reverse]
  | c :: cs, acc =>
    if isWsChar c then
      if acc.isEmpty then splitWsAux cs [] else acc.reverse :: splitWsAux cs []
    else splitWsAux cs (c :: acc)

/-- Join words with single spaces. -/
def joinWords : List (List Char) → List Char
  | [] => []
  | [w] => w
  | w :: rest => w ++ ' ' :: joinWords rest

/-- `(t || '').toLowerCase().replace(/\s+/g, ' ').trim()`
(`normalizeTitle` in `src/app/api/news/route.ts`): lower-case, collapse
whitespace runs to single spaces, trim the ends. -/
def normalizeTitle (t : String) : String :=
  String.mk (joinWords (splitWsAux (jsLower t).toList []))

/-- JavaScript string falsiness of an optional string:
`undefined`, `null` and `''` are falsy. -/
def strFalsy (o : Option String) : Bool :=
  o.getD "" == ""

/-! ## JavaScript `Map` model: insertion-ordered association lists -/

/-- `map.has(k)`. -/
def jsHas (m : List (String × α)) (k : String) : Bool :=
  m.any (fun p => p.1 == k)

/-- `map.get(k)` (first — and in a real `Map`, only — entry for the key). -/
def jsGet (m : List (String × α)) (k : String) : Option α :=
  (m.find? (fun p => p.1 == k)).map (·.2)

/-- `map.set(k, v)`: update in place if the key is present (keeping its
position in the iteration order), otherwise append. -/
def jsSet (m : List (String × α)) (k : String) (v : α) : List (String × α) :=
  if jsHas m k then m.map (fun p => if p.1 == k then (k, v) else p)
  else m ++ [(k, v)]

/-- `map.delete(k)`. -/
def jsDelete (m : List (String × α)) (k : String) : List (String × α) :=
  m.filter (fun p => p.1 != k)

/-- `Array.from(map.values())` (iteration order = insertion order). -/
def jsValues (m : List (String × α)) : List α :=
  m.map (·.2)

/-! ## Data model (`NewsArticle` from `src/app/api/news/route.ts`) -/

/-- The fixed category enumeration
`'flood-control' | 'dpwh' | 'corrupt-politicians' | 'nepo-babies'`. -/
inductive Category where
  | floodControl
  | dpwh
  | corruptPoliticians
  | nepoBabies
  deriving DecidableEq, Repr

/-- `source: { name, url? }`. -/
structure NewsSource where
  name : String
  url : Option String := none
  deriving DecidableEq, Repr

/-- The canonical `NewsArticle` interface. -/
structure NewsArticle where
  id : Option String := none
  title : String
  description : String := ""
  url : Option String := none
  urlToImage : Option String := none
  publishedAt : String := ""
  source : NewsSource := { name := "" }
  category : Category := .corruptPoliticians
  content : Option String := none
  deriving DecidableEq, Repr

/-- `EXCLUDE_DOMAINS` (aggregator deny-list). -/
def EXCLUDE_DOMAINS : List String :=
  [ "news.google.com", "news.yahoo.com", "yahoo.com", "msn.com",
    "pressreader.com", "facebook.com", "twitter.com", "x.com",
    "reddit.com", "youtube.com" ]

/-! ## `getHostname`

Models `new URL(u).hostname.replace(/^www\./, '')` with `catch → ''`,
for absolute `http(s)` URLs (the only kind the engine handles); any other
string makes the `URL` constructor throw, so it yields `''`. The WHATWG
parser lower-cases the hostname. -/

/-- Characters ending the authority component of a URL. -/
def endsAuthority (c : Char) : Bool := c == '/' || c == '?' || c == '#'

def getHostname (u : Option String) : String :=
  match u with
  | none => ""
  | some s =>
    let cs := s.toList
    let rest :=
      if leadsWith "https://".toList cs then cs.drop 8
      else if leadsWith "http://".toList cs then cs.drop 7
      else []
    let authority := rest.takeWhile (fun c => !endsAuthority c)
    -- drop userinfo (up to the last '@'), then the port (after the first ':')
    let hostPort := (authority.reverse.takeWhile (· != '@')).reverse
    let host := (hostPort.takeWhile (· != ':')).map Char.toLower
    let host := if leadsWith "www.".toList host then host.drop 4 else host
    String.mk host

/-! ## Deduplicator (`dedupeArticles`, `src/app/api/news/route.ts:212`) -/

/-- `(a.url || '').split('?')[0]` — the canonical URL (query string stripped):
everything before the first `'?'`. -/
def canonUrl (u : Option String) : String :=
  String.mk ((u.getD "").toList.takeWhile (· ≠ '?'))

/-- One iteration of the `for (const a of items)` loop of `dedupeArticles`,
acting on the pair of maps `(byUrl, byTitle)`. -/
def dedupeStep (st : List (String × NewsArticle) × List (String × NewsArticle))
    (a : NewsArticle) : List (String × NewsArticle) × List (String × NewsArticle) :=
  let keyUrl := canonUrl a.url
  let keyTitle := normalizeTitle a.title
  let host := getHostname a.url
  if EXCLUDE_DOMAINS.contains host then st
  else if keyUrl ≠ "" ∧ jsHas st.1 keyUrl = false then (jsSet st.1 keyUrl a, st.2)
  else if keyTitle ≠ "" ∧ jsHas st.2 keyTitle = false then (st.1, jsSet st.2 keyTitle a)
  else st

/-- The final merge loop: push each `byTitle` value whose normalized title is
not already present in the accumulated list. -/
def mergeTitles (merged : List NewsArticle) (tm : List (String × NewsArticle)) :
    List NewsArticle :=
  tm.foldl
    (fun m p => if m.any (fun x => normalizeTitle x.title == p.1) then m else m ++ [p.2])
    merged

/-- `dedupeArticles`: two-tier URL/title deduplication. -/
def dedupeArticles (items : List NewsArticle) : List NewsArticle :=
  let st := items.foldl dedupeStep ([], [])
  mergeTitles (jsValues st.1) st.2

/-! ### Small-step lemmas for `dedupeStep` -/

theorem dedupeStep_excluded {U T : List (String × NewsArticle)} {a : NewsArticle}
    (h : EXCLUDE_DOMAINS.contains (getHostname a.url) = true) :
    dedupeStep (U, T) a = (U, T) := by
  have h' : getHostname a.url ∈ EXCLUDE_DOMAINS := by simpa using h
  simp [dedupeStep, h']

theorem dedupeStep_url {U T : List (String × NewsArticle)} {a : NewsArticle}
    (h1 : EXCLUDE_DOMAINS.contains (getHostname a.url) = false)
    (h2 : canonUrl a.url ≠ "") (h3 : jsHas U (canonUrl a.url) = false) :
    dedupeStep (U, T) a = (jsSet U (canonUrl a.url) a, T) := by
  have h1' : getHostname a.url ∉ EXCLUDE_DOMAINS := by simpa using h1
  simp [dedupeStep, h1', h2, h3]

theorem dedupeStep_title {U T : List (String × NewsArticle)} {a : NewsArticle}
    (h1 : EXCLUDE_DOMAINS.contains (getHostname a.url) = false)
    (h2 : ¬(canonUrl a.url ≠ "" ∧ jsHas U (canonUrl a.url) = false))
    (h3 : normalizeTitle a.title ≠ "")
    (h4 : jsHas T (normalizeTitle a.title) = false) :
    dedupeStep (U, T) a = (U, jsSet T (normalizeTitle a.title) a) := by
  have h1' : getHostname a.url ∉ EXCLUDE_DOMAINS := by simpa using h1
  simp only [dedupeStep]
  rw [if_neg (by simpa using h1'), if_neg h2, if_pos ⟨h3, h4⟩]

theorem dedupeStep_skip {U T : List (String × NewsArticle)} {a : NewsArticle}
    (h1 : EXCLUDE_DOMAINS.contains (getHostname a.url) = false)
    (h2 : ¬(canonUrl a.url ≠ "" ∧ jsHas U (canonUrl a.url) = false))
    (h3 : ¬(normalizeTitle a.title ≠ "" ∧ jsHas T (normalizeTitle a.title) = false)) :
    dedupeStep (U, T) a = (U, T) := by
  have h1' : getHostname a.url ∉ EXCLUDE_DOMAINS := by simpa using h1
  simp only [dedupeStep]
  rw [if_neg (by simpa using h1'), if_neg h2, if_neg h3]

/-! ## Claim C3: URL-collision deduplication -/

/-- First article of the C3 counterexample: a canonical URL with one query
string and one headline. -/
def c3ArticleA : NewsArticle :=
  { title := "Senate probes flood control scam",
    url := some "https://rappler.com/news/a?utm_source=x" }

/-- Second article of the C3 counterexample: the same canonical URL with a
different query string, but a different headline. -/
def c3ArticleB : NewsArticle :=
  { title := "DPWH official faces raps",
    url := some "https://rappler.com/news/a?utm_source=y" }

/-- C3 counterexample: two articles whose canonicalized URLs are equal and
whose full URLs differ only in the query string, yet `dedupeArticles` keeps
BOTH of them (the second survives through the title map because its
normalized title differs), refuting "dedupe keeps exactly one of the two". -/
theorem c3_counterexample :
    canonUrl c3ArticleA.url = canonUrl c3ArticleB.url ∧
    c3ArticleA.url ≠ c3ArticleB.url ∧
    dedupeArticles [c3ArticleA, c3ArticleB] = [c3ArticleA, c3ArticleB] := by
  decide

/-- C3 amended: for two articles with equal canonical URLs (query strings
stripped), `dedupeArticles` keeps exactly the first occurrence whenever the
second article cannot re-enter through the title map — that is, when the two
articles carry the same normalized title, or the second's normalized title
is empty (in general a colliding article with a distinct non-empty title
survives through the title map). -/
theorem c3_amended (a b : NewsArticle)
    (hhostA : EXCLUDE_DOMAINS.contains (getHostname a.url) = false)
    (hhostB : EXCLUDE_DOMAINS.contains (getHostname b.url) = false)
    (hcanon : canonUrl a.url = canonUrl b.url)
    (hne : canonUrl a.url ≠ "")
    (htitle : normalizeTitle a.title = normalizeTitle b.title ∨
      normalizeTitle b.title = "") :
    dedupeArticles [a, b] = [a] := by
  have e1 : dedupeStep ([], []) a = ([(canonUrl a.url, a)], []) := by
    rw [dedupeStep_url hhostA hne (by simp [jsHas])]
    simp [jsSet, jsHas]
  have hhas : jsHas [(canonUrl a.url, a)] (canonUrl b.url) = true := by
    simp [jsHas, hcanon]
  have hnotUrl : ¬(canonUrl b.url ≠ "" ∧
      jsHas [(canonUrl a.url, a)] (canonUrl b.url) = false) := by
    rintro ⟨-, h⟩; rw [hhas] at h; exact Bool.noConfusion h
  by_cases ht : normalizeTitle b.title = ""
  · have e2 : dedupeStep ([(canonUrl a.url, a)], []) b = ([(canonUrl a.url, a)], []) :=
      dedupeStep_skip hhostB hnotUrl (by rintro ⟨h, -⟩; exact h ht)
    simp only [dedupeArticles, List.foldl_cons, List.foldl_nil, e1, e2]
    simp [mergeTitles, jsValues]
  · have heq : normalizeTitle a.title = normalizeTitle b.title :=
      htitle.resolve_right ht
    have e2 : dedupeStep ([(canonUrl a.url, a)], []) b =
        ([(canonUrl a.url, a)], [(normalizeTitle b.title, b)]) := by
      rw [dedupeStep_title hhostB hnotUrl ht (by simp [jsHas])]
      simp [jsSet, jsHas]
    simp only [dedupeArticles, List.foldl_cons, List.foldl_nil, e1, e2]
    simp [mergeTitles, jsValues, heq]

/-- Witness for `c3_amended` at concrete inputs, one per branch of its title
hypothesis: a colliding second article with the same normalized title, and a
colliding second article with a whitespace-only (normalized-empty) title. -/
theorem c3_amended_witness :
    dedupeArticles
      [{ title := "Senate probes flood control scam",
         url := some "https://rappler.com/news/a?utm_source=x" },
       { title := " senate  probes flood control SCAM ",
         url := some "https://rappler.com/news/a?utm_source=y" }] =
      [{ title := "Senate probes flood control scam",
         url := some "https://rappler.com/news/a?utm_source=x" }] ∧
    dedupeArticles
      [{ title := "Senate probes flood control scam",
         url := some "https://rappler.com/news/a?utm_source=x" },
       { title := "   ",
         url := some "https://rappler.com/news/a?utm_source=y" }] =
      [{ title := "Senate probes flood control scam",
         url := some "https://rappler.com/news/a?utm_source=x" }] :=
  ⟨c3_amended _ _ (by decide) (by decide) (by decide) (by decide)
      (Or.inl (by decide)),
   c3_amended _ _ (by decide) (by decide) (by decide) (by decide)
      (Or.inr (by decide))⟩

/-! ## Claim C4: idempotence of the deduplicator -/

theorem jsHas_eq_false_iff {α : Type} {m : List (String × α)} {k : String} :
    jsHas m k = false ↔ k ∉ m.map Prod.fst := by
  simp only [jsHas]
  rw [← Bool.not_eq_true, List.any_eq_true]
  simp

theorem jsHas_append {α : Type} {m n : List (String × α)} {k : String} :
    jsHas (m ++ n) k = (jsHas m k || jsHas n k) := by
  simp [jsHas, List.any_append]

theorem jsSet_of_not_has {α : Type} {m : List (String × α)} {k : String} {v : α}
    (h : jsHas m k = false) : jsSet m k v = m ++ [(k, v)] := by
  simp [jsSet, h]

/-- The invariant maintained by the `dedupeArticles` loop on the pair of maps
`(byUrl, byTitle)`: `byUrl` is keyed by non-empty canonical URLs of its
values, `byTitle` by non-empty normalized titles of its values, no excluded
host is stored, keys are unique, and every `byTitle` entry either has no URL
or collides with a URL already in `byUrl`. -/
structure DedupInv (U T : List (String × NewsArticle)) : Prop where
  urlKey : ∀ p ∈ U, p.1 = canonUrl p.2.url
  urlNe : ∀ p ∈ U, p.1 ≠ ""
  urlHost : ∀ p ∈ U, EXCLUDE_DOMAINS.contains (getHostname p.2.url) = false
  urlNodup : (U.map Prod.fst).Nodup
  titleKey : ∀ p ∈ T, p.1 = normalizeTitle p.2.title
  titleNe : ∀ p ∈ T, p.1 ≠ ""
  titleHost : ∀ p ∈ T, EXCLUDE_DOMAINS.contains (getHostname p.2.url) = false
  titleUrl : ∀ p ∈ T, canonUrl p.2.url = "" ∨ jsHas U (canonUrl p.2.url) = true
  titleNodup : (T.map Prod.fst).Nodup

theorem dedupInv_nil : DedupInv [] [] := by
  constructor <;> simp

theorem dedupInv_step {U T : List (String × NewsArticle)} {a : NewsArticle}
    (h : DedupInv U T) :
    DedupInv (dedupeStep (U, T) a).1 (dedupeStep (U, T) a).2 := by
  cases hx : EXCLUDE_DOMAINS.contains (getHostname a.url) with
  | true => rw [dedupeStep_excluded hx]; exact h
  | false =>
    by_cases hu : canonUrl a.url ≠ "" ∧ jsHas U (canonUrl a.url) = false
    · rw [dedupeStep_url hx hu.1 hu.2, jsSet_of_not_has hu.2]
      have hnotin : canonUrl a.url ∉ U.map Prod.fst := jsHas_eq_false_iff.mp hu.2
      refine ⟨?_, ?_, ?_, ?_, h.titleKey, h.titleNe, h.titleHost, ?_, h.titleNodup⟩
      · intro p hp
        rcases List.mem_append.mp hp with hp | hp
        · exact h.urlKey p hp
        · simp only [List.mem_singleton] at hp; subst hp; rfl
      · intro p hp
        rcases List.mem_append.mp hp with hp | hp
        · exact h.urlNe p hp
        · simp only [List.mem_singleton] at hp; subst hp; exact hu.1
      · intro p hp
        rcases List.mem_append.mp hp with hp | hp
        · exact h.urlHost p hp
        · simp only [List.mem_singleton] at hp; subst hp; exact hx
      · rw [List.map_append]
        simp only [List.map_cons, List.map_nil]
        rw [List.nodup_append]
        exact ⟨h.urlNodup, List.nodup_singleton _, by simpa using hnotin⟩
      · intro p hp
        rcases h.titleUrl p hp with hc | hc
        · exact Or.inl hc
        · exact Or.inr (by rw [jsHas_append, hc, Bool.true_or])
    · by_cases ht : normalizeTitle a.title ≠ "" ∧ jsHas T (normalizeTitle a.title) = false
      · rw [dedupeStep_title hx hu ht.1 ht.2, jsSet_of_not_has ht.2]
        have hnotin : normalizeTitle a.title ∉ T.map Prod.fst := jsHas_eq_false_iff.mp ht.2
        refine ⟨h.urlKey, h.urlNe, h.urlHost, h.urlNodup, ?_, ?_, ?_, ?_, ?_⟩
        · intro p hp
          rcases List.mem_append.mp hp with hp | hp
          · exact h.titleKey p hp
          · simp only [List.mem_singleton] at hp; subst hp; rfl
        · intro p hp
          rcases List.mem_append.mp hp with hp | hp
          · exact h.titleNe p hp
          · simp only [List.mem_singleton] at hp; subst hp; exact ht.1
        · intro p hp
          rcases List.mem_append.mp hp with hp | hp
          · exact h.titleHost p hp
          · simp only [List.mem_singleton] at hp; subst hp; exact hx
        · intro p hp
          rcases List.mem_append.mp hp with hp | hp
          · exact h.titleUrl p hp
          · simp only [List.mem_singleton] at hp; subst hp
            rcases Decidable.not_and_iff_or_not.mp hu with hc | hc
            · exact Or.inl (by simpa using hc)
            · exact Or.inr (by simpa using hc)
        · rw [List.map_append]
          simp only [List.map_cons, List.map_nil]
          rw [List.nodup_append]
          exact ⟨h.titleNodup, List.nodup_singleton _, by simpa using hnotin⟩
      · rw [dedupeStep_skip hx hu ht]; exact h

theorem dedupInv_foldl (l : List NewsArticle) :
    ∀ U T : List (String × NewsArticle), DedupInv U T →
      DedupInv (l.foldl dedupeStep (U, T)).1 (l.foldl dedupeStep (U, T)).2 := by
  induction l with
  | nil => exact fun U T h => h
  | cons a l ih =>
    intro U T h
    rw [List.foldl_cons]
    exact ih _ _ (dedupInv_step h)

theorem mergeTitles_cons {merged : List NewsArticle} {p : String × NewsArticle}
    {rest : List (String × NewsArticle)} :
    mergeTitles merged (p :: rest) =
      mergeTitles
        (if merged.any (fun x => normalizeTitle x.title == p.1) then merged
         else merged ++ [p.2]) rest := rfl

theorem mergeTitles_spec (tm : List (String × NewsArticle)) :
    ∀ merged : List NewsArticle,
    (∀ p ∈ tm, p.1 = normalizeTitle p.2.title) → (tm.map Prod.fst).Nodup →
    mergeTitles merged tm =
      merged ++
        (tm.filter
          (fun p => !(merged.any (fun x => normalizeTitle x.title == p.1)))).map (·.2) := by
  induction tm with
  | nil => intro merged _ _; simp [mergeTitles]
  | cons p rest ih =>
    intro merged hk hnd
    have hkrest : ∀ q ∈ rest, q.1 = normalizeTitle q.2.title :=
      fun q hq => hk q (List.mem_cons_of_mem _ hq)
    have hndrest : (rest.map Prod.fst).Nodup := by
      simpa using hnd.of_cons
    rw [mergeTitles_cons]
    by_cases hany : merged.any (fun x => normalizeTitle x.title == p.1) = true
    · rw [if_pos hany, ih merged hkrest hndrest,
        List.filter_cons_of_neg (by simp [hany])]
    · have hany' : merged.any (fun x => normalizeTitle x.title == p.1) = false :=
        Bool.eq_false_iff.mpr hany
      rw [if_neg hany, ih (merged ++ [p.2]) hkrest hndrest,
        List.filter_cons_of_pos (by simp [hany'])]
      have hfc : rest.filter
            (fun q => !((merged ++ [p.2]).any (fun x => normalizeTitle x.title == q.1))) =
          rest.filter
            (fun q => !(merged.any (fun x => normalizeTitle x.title == q.1))) := by
        apply List.filter_congr
        intro q hq
        have hneq : p.1 ≠ q.1 := by
          intro hcontra
          have : p.1 ∈ rest.map Prod.fst := hcontra ▸ List.mem_map_of_mem Prod.fst hq
          exact (List.nodup_cons.mp hnd).1 this
        have hp1 : normalizeTitle p.2.title = p.1 := (hk p (List.mem_cons_self _ _)).symm
        simp [List.any_append, hp1, hneq]
      rw [hfc]
      simp

theorem foldl_url_segment (U1 : List (String × NewsArticle)) :
    ∀ U0 : List (String × NewsArticle),
    (∀ p ∈ U1, p.1 = canonUrl p.2.url) → (∀ p ∈ U1, p.1 ≠ "") →
    (∀ p ∈ U1, EXCLUDE_DOMAINS.contains (getHostname p.2.url) = false) →
    ((U0 ++ U1).map Prod.fst).Nodup →
    (jsValues U1).foldl dedupeStep (U0, ([] : List (String × NewsArticle))) =
      (U0 ++ U1, []) := by
  induction U1 with
  | nil => intro U0 _ _ _ _; simp [jsValues]
  | cons p rest ih =>
    intro U0 hkey hne hhost hnd
    have hp1 : p.1 = canonUrl p.2.url := hkey p (List.mem_cons_self _ _)
    have hnotin : canonUrl p.2.url ∉ U0.map Prod.fst := by
      rw [← hp1]
      intro hcontra
      rw [List.map_append, List.nodup_append] at hnd
      exact hnd.2.2 hcontra (by simp)
    have hstep : dedupeStep (U0, ([] : List (String × NewsArticle))) p.2 =
        (U0 ++ [p], []) := by
      rw [dedupeStep_url (hhost p (List.mem_cons_self _ _))
        (hp1 ▸ hne p (List.mem_cons_self _ _)) (jsHas_eq_false_iff.mpr hnotin),
        jsSet_of_not_has (jsHas_eq_false_iff.mpr hnotin), ← hp1]
    have : jsValues (p :: rest) = p.2 :: jsValues rest := rfl
    rw [this, List.foldl_cons, hstep,
      ih (U0 ++ [p]) (fun q hq => hkey q (List.mem_cons_of_mem _ hq))
        (fun q hq => hne q (List.mem_cons_of_mem _ hq))
        (fun q hq => hhost q (List.mem_cons_of_mem _ hq))
        (by simpa using hnd)]
    simp

theorem foldl_title_segment (ts : List NewsArticle)
    (U : List (String × NewsArticle)) :
    ∀ T0 : List (String × NewsArticle),
    (∀ t ∈ ts, EXCLUDE_DOMAINS.contains (getHostname t.url) = false) →
    (∀ t ∈ ts, canonUrl t.url = "" ∨ jsHas U (canonUrl t.url) = true) →
    (∀ t ∈ ts, normalizeTitle t.title ≠ "") →
    ((T0.map Prod.fst) ++ ts.map (fun t => normalizeTitle t.title)).Nodup →
    ts.foldl dedupeStep (U, T0) =
      (U, T0 ++ ts.map (fun t => (normalizeTitle t.title, t))) := by
  induction ts with
  | nil => intro T0 _ _ _ _; simp
  | cons t rest ih =>
    intro T0 hhost hurl htne hnd
    have hmem := List.mem_cons_self t rest
    have hnotu : ¬(canonUrl t.url ≠ "" ∧ jsHas U (canonUrl t.url) = false) := by
      rintro ⟨hne, hf⟩
      rcases hurl t hmem with hc | hc
      · exact hne hc
      · rw [hc] at hf; exact Bool.noConfusion hf
    have hnotin : normalizeTitle t.title ∉ T0.map Prod.fst := by
      intro hcontra
      rw [List.nodup_append] at hnd
      exact hnd.2.2 hcontra (by simp)
    have hstep : dedupeStep (U, T0) t = (U, T0 ++ [(normalizeTitle t.title, t)]) := by
      rw [dedupeStep_title (hhost t hmem) hnotu (htne t hmem)
        (jsHas_eq_false_iff.mpr hnotin),
        jsSet_of_not_has (jsHas_eq_false_iff.mpr hnotin)]
    rw [List.foldl_cons, hstep,
      ih (T0 ++ [(normalizeTitle t.title, t)])
        (fun q hq => hhost q (List.mem_cons_of_mem _ hq))
        (fun q hq => hurl q (List.mem_cons_of_mem _ hq))
        (fun q hq => htne q (List.mem_cons_of_mem _ hq))
        (by simpa using hnd)]
    simp

/-- C4: the deduplicator is idempotent — `dedupe(dedupe(x)) == dedupe(x)`
for every article list `x`. -/
theorem c4_dedupe_idempotent (l : List NewsArticle) :
    dedupeArticles (dedupeArticles l) = dedupeArticles l := by
  have hinv : DedupInv (l.foldl dedupeStep ([], [])).1 (l.foldl dedupeStep ([], [])).2 :=
    dedupInv_foldl l [] [] dedupInv_nil
  set U := (l.foldl dedupeStep ([], [])).1 with hU
  set T := (l.foldl dedupeStep ([], [])).2 with hT
  set us := jsValues U with hus
  set ps := T.filter (fun p => !(us.any (fun x => normalizeTitle x.title == p.1)))
    with hps
  have hpsT : ∀ p ∈ ps, p ∈ T := fun p hp => List.mem_of_mem_filter (hps ▸ hp)
  have hpass : ∀ p ∈ ps, (!(us.any (fun x => normalizeTitle x.title == p.1))) = true := by
    intro p hp
    rw [hps] at hp
    exact (List.mem_filter.mp hp).2
  have hpsk : ∀ p ∈ ps, p.1 = normalizeTitle p.2.title :=
    fun p hp => hinv.titleKey p (hpsT p hp)
  have hpsnd : (ps.map Prod.fst).Nodup :=
    ((List.filter_sublist _).map Prod.fst).nodup hinv.titleNodup
  have hout : dedupeArticles l = us ++ ps.map (·.2) := by
    show mergeTitles (jsValues U) T = _
    rw [mergeTitles_spec T (jsValues U) hinv.titleKey hinv.titleNodup]
  set ts := ps.map (·.2) with hts
  -- properties of the pushed title-extras
  have htsProp : ∀ t ∈ ts, EXCLUDE_DOMAINS.contains (getHostname t.url) = false ∧
      (canonUrl t.url = "" ∨ jsHas U (canonUrl t.url) = true) ∧
      normalizeTitle t.title ≠ "" := by
    intro t hts'
    rcases List.mem_map.mp hts' with ⟨p, hp, rfl⟩
    refine ⟨hinv.titleHost p (hpsT p hp), hinv.titleUrl p (hpsT p hp), ?_⟩
    rw [← hpsk p hp]
    exact hinv.titleNe p (hpsT p hp)
  have htsmap : ts.map (fun t => normalizeTitle t.title) = ps.map Prod.fst := by
    rw [hts, List.map_map]
    exact List.map_congr_left (fun p hp => (hpsk p hp).symm)
  have htsmap2 : ts.map (fun t => (normalizeTitle t.title, t)) = ps := by
    rw [hts, List.map_map]
    have : ∀ p ∈ ps, ((fun t => (normalizeTitle t.title, t)) ∘ (·.2)) p = p := by
      intro p hp
      simp only [Function.comp]
      rw [← hpsk p hp]
    rw [List.map_congr_left this]
    simp
  rw [hout]
  show mergeTitles
    (jsValues ((us ++ ts).foldl dedupeStep ([], [])).1)
    ((us ++ ts).foldl dedupeStep ([], [])).2 = us ++ ts
  rw [List.foldl_append, hus, foldl_url_segment U [] hinv.urlKey hinv.urlNe
    hinv.urlHost (by simpa using hinv.urlNodup)]
  simp only [List.nil_append]
  rw [foldl_title_segment ts U [] (fun t ht => (htsProp t ht).1)
    (fun t ht => (htsProp t ht).2.1) (fun t ht => (htsProp t ht).2.2)
    (by rw [htsmap]; simpa using hpsnd)]
  simp only [List.nil_append]
  rw [htsmap2]
  show mergeTitles (jsValues U) ps = _
  rw [mergeTitles_spec ps (jsValues U) hpsk hpsnd, ← hus,
    List.filter_eq_self.mpr hpass]

/-! ## Date parsing

Models `new Date(s).getTime()` on the ISO 8601 subset the engine exchanges
(`YYYY-MM-DD`, optionally followed by `THH:MM[:SS[.sss]][Z]`); any other
string is an Invalid Date (`NaN`), modelled as `none`. Date-only and
`Z`-suffixed forms are UTC; the server clock is modelled as UTC. -/

def digitVal (c : Char) : Option Nat :=
  if c.isDigit then some (c.toNat - 48) else none

def digits2 (a b : Char) : Option Nat := do
  let x ← digitVal a
  let y ← digitVal b
  pure (10 * x + y)

def digits4 (a b c d : Char) : Option Nat := do
  let x ← digits2 a b
  let y ← digits2 c d
  pure (100 * x + y)

def isLeapYear (y : Nat) : Bool :=
  y % 4 == 0 && (y % 100 != 0 || y % 400 == 0)

def daysInMonth (y m : Nat) : Nat :=
  if m = 2 then (if isLeapYear y then 29 else 28)
  else if m = 4 ∨ m = 6 ∨ m = 9 ∨ m = 11 then 30
  else 31

/-- Days from 1970-01-01 to the civil date `y-m-d` (proleptic Gregorian). -/
def daysFromCivil (y m d : Nat) : Int :=
  let yi : Int := if m ≤ 2 then (y : Int) - 1 else (y : Int)
  let era : Int := (if 0 ≤ yi then yi else yi - 399) / 400
  let yoe : Int := yi - era * 400
  let mp : Int := ((m : Int) + 9) % 12
  let doy : Int := (153 * mp + 2) / 5 + (d : Int) - 1
  let doe : Int := yoe * 365 + yoe / 4 - yoe / 100 + doy
  era * 146097 + doe - 719468

def msOfDateTime (y mo d h mi s ms : Nat) : Int :=
  daysFromCivil y mo d * 86400000 +
    (h : Int) * 3600000 + (mi : Int) * 60000 + (s : Int) * 1000 + (ms : Int)

/-- Parse the `HH:MM[:SS[.sss]][Z]` clock part (after the `'T'`). -/
def parseClock : List Char → Option (Nat × Nat × Nat × Nat)
  | h1 :: h2 :: ':' :: m1 :: m2 :: rest => do
    let h ← digits2 h1 h2
    let mi ← digits2 m1 m2
    if 24 ≤ h ∨ 60 ≤ mi then none else
    match rest with
    | [] => pure (h, mi, 0, 0)
    | ['Z'] => pure (h, mi, 0, 0)
    | ':' :: s1 :: s2 :: rest2 => do
      let s ← digits2 s1 s2
      if 60 ≤ s then none else
      match rest2 with
      | [] => pure (h, mi, s, 0)
      | ['Z'] => pure (h, mi, s, 0)
      | '.' :: a :: b :: c :: rest3 => do
        let x ← digitVal a
        let y ← digitVal b
        let z ← digitVal c
        match rest3 with
        | [] => pure (h, mi, s, 100 * x + 10 * y + z)
        | ['Z'] => pure (h, mi, s, 100 * x + 10 * y + z)
        | _ => none
      | _ => none
    | _ => none
  | _ => none

/-- `new Date(str).getTime()` (ms since the epoch), `none` for `NaN`. -/
def parseDateMs (str : String) : Option Int :=
  match str.toList with
  | y1 :: y2 :: y3 :: y4 :: '-' :: m1 :: m2 :: '-' :: d1 :: d2 :: rest => do
    let y ← digits4 y1 y2 y3 y4
    let mo ← digits2 m1 m2
    let d ← digits2 d1 d2
    if mo < 1 ∨ 12 < mo ∨ d < 1 ∨ daysInMonth y mo < d then none else
    match rest with
    | [] => pure (msOfDateTime y mo d 0 0 0 0)
    | 'T' :: cs => do
      let c ← parseClock cs
      pure (msOfDateTime y mo d c.1 c.2.1 c.2.2.1 c.2.2.2)
    | _ => none
  | _ => none

/-! ## Date-Window Filter (`withinWindow`, `src/app/api/news/route.ts:144`) -/

/-- `withinWindow(iso, from, to)`: `true` with no (falsy) bounds; `true` when
the article timestamp does not parse (fail-open); otherwise each parseable
bound is enforced inclusively, and an unparseable bound is only warned about
and skipped. -/
def withinWindow (iso : String) (fromB toB : Option String) : Bool :=
  if strFalsy fromB && strFalsy toB then true
  else
    match parseDateMs iso with
    | none => true
    | some articleTime =>
      let fromViolated :=
        if strFalsy fromB then false
        else
          match parseDateMs (fromB.getD "") with
          | none => false
          | some fromTime => decide (articleTime < fromTime)
      let toViolated :=
        if strFalsy toB then false
        else
          match parseDateMs (toB.getD "") with
          | none => false
          | some toTime => decide (toTime < articleTime)
      if fromViolated then false
      else if toViolated then false
      else true

/-- C5: `withinWindow` returns `true` when no bound is given; returns `true`
for an unparseable timestamp (fail-open); and each bound is independently
optional and inclusive: a timestamp parsing to exactly the bound's value is
within the window. -/
theorem c5_within_window (iso fs : String) (fromB toB : Option String) :
    (withinWindow iso none none = true) ∧
    (parseDateMs iso = none → withinWindow iso fromB toB = true) ∧
    (fs ≠ "" → parseDateMs fs = parseDateMs iso → parseDateMs iso ≠ none →
      withinWindow iso (some fs) none = true ∧
      withinWindow iso none (some fs) = true ∧
      withinWindow iso (some fs) (some fs) = true) := by
  refine ⟨by simp [withinWindow, strFalsy], ?_, ?_⟩
  · intro h
    by_cases hb : (strFalsy fromB && strFalsy toB) = true
    · simp [withinWindow, hb]
    · simp only [withinWindow, h]
      rw [if_neg hb]
  · intro h1 h2 h3
    obtain ⟨t, ht⟩ := Option.ne_none_iff_exists'.mp h3
    have hfp : parseDateMs fs = some t := h2.trans ht
    have hfs : strFalsy (some fs) = false := by
      simp [strFalsy]
      exact h1
    refine ⟨?_, ?_, ?_⟩ <;>
      simp [withinWindow, hfs, ht, hfp, strFalsy]

/-- Witness for `c5_within_window` at concrete inputs. -/
theorem c5_within_window_witness :
    withinWindow "2024-06-15" none none = true ∧
    withinWindow "not-a-date" (some "2024-01-01") (some "2024-12-31") = true ∧
    (withinWindow "2024-06-15" (some "2024-06-15") none = true ∧
     withinWindow "2024-06-15" none (some "2024-06-15") = true ∧
     withinWindow "2024-06-15" (some "2024-06-15") (some "2024-06-15") = true) :=
  ⟨(c5_within_window "2024-06-15" "" none none).1,
   (c5_within_window "not-a-date" "" (some "2024-01-01") (some "2024-12-31")).2.1
     (by decide),
   (c5_within_window "2024-06-15" "2024-06-15" none none).2.2
     (by decide) rfl (by decide)⟩

/-! ## Result Cache (`getCached`/`setCached`, `src/app/api/news/route.ts:102`) -/

/-- A `memoryCache` entry: `{ ts, articles, providerTrace }`. -/
structure CacheEntry where
  ts : Nat
  articles : List NewsArticle
  providerTrace : List String
  deriving DecidableEq, Repr

def CACHE_TTL_MS : Nat := 60000

def MAX_CACHE_ENTRIES : Nat := 100

/-- `getCached`: return the entry only while it is younger than the TTL. -/
def getCached (cache : List (String × CacheEntry)) (key : String) (now : Nat) :
    Option CacheEntry :=
  match jsGet cache key with
  | some entry => if now - entry.ts < CACHE_TTL_MS then some entry else none
  | none => none

/-- One step of the oldest-entry scan (`oldestTs` starts at `Infinity`,
modelled as `none`; strictly smaller timestamps win, so the first minimal
entry is selected). -/
def oldestStep : Option String × Option Nat → String × CacheEntry →
    Option String × Option Nat
  | (_, none), p => (some p.1, some p.2.ts)
  | (ok, some o), p => if p.2.ts < o then (some p.1, some p.2.ts) else (ok, some o)

/-- The `for (const [k, v] of memoryCache)` oldest-entry scan of `setCached`. -/
def findOldestKey (m : List (String × CacheEntry)) : Option String :=
  (m.foldl oldestStep (none, none)).1

/-- The eviction step of `setCached`: delete the key selected by the
oldest-entry scan (`if (oldestKey)` skips the falsy empty key). -/
def evictOldest (m : List (String × CacheEntry)) : List (String × CacheEntry) :=
  match findOldestKey m with
  | some oldestKey => if oldestKey == "" then m else jsDelete m oldestKey
  | none => m

/-- `setCached`: write the entry, then evict the globally oldest entry if the
cache exceeds its capacity. -/
def setCached (cache : List (String × CacheEntry)) (key : String)
    (articles : List NewsArticle) (providerTrace : List String) (now : Nat) :
    List (String × CacheEntry) :=
  let m := jsSet cache key ⟨now, articles, providerTrace⟩
  if MAX_CACHE_ENTRIES < m.length then evictOldest m else m

theorem jsGet_cons {α : Type} (p : String × α) (rest : List (String × α))
    (key : String) :
    jsGet (p :: rest) key =
      if (p.1 == key) = true then some p.2 else jsGet rest key := by
  by_cases hpk : (p.1 == key) = true
  · have hfind : List.find? (fun q => q.1 == key) (p :: rest) = some p :=
      List.find?_cons_of_pos rest hpk
    rw [if_pos hpk, jsGet, hfind]
    rfl
  · have hfind : List.find? (fun q => q.1 == key) (p :: rest) =
        List.find? (fun q => q.1 == key) rest :=
      List.find?_cons_of_neg rest hpk
    rw [if_neg hpk, jsGet, hfind]
    rfl

theorem jsDelete_cons {α : Type} (p : String × α) (rest : List (String × α))
    (k0 : String) :
    jsDelete (p :: rest) k0 =
      if (p.1 != k0) = true then p :: jsDelete rest k0 else jsDelete rest k0 := by
  by_cases hp0 : (p.1 != k0) = true
  · rw [if_pos hp0]
    show List.filter (fun q => q.1 != k0) (p :: rest) =
      p :: List.filter (fun q => q.1 != k0) rest
    exact List.filter_cons_of_pos hp0
  · rw [if_neg hp0]
    show List.filter (fun q => q.1 != k0) (p :: rest) =
      List.filter (fun q => q.1 != k0) rest
    exact List.filter_cons_of_neg (by simpa using hp0)

theorem jsGet_set_self {α : Type} (m : List (String × α)) (k : String) (v : α) :
    jsGet (jsSet m k v) k = some v := by
  by_cases h : jsHas m k = true
  · rw [jsSet, if_pos h]
    revert h
    induction m with
    | nil => intro h; simp [jsHas] at h
    | cons p rest ih =>
      intro h
      simp only [List.map_cons]
      by_cases hpk : (p.1 == k) = true
      · rw [if_pos hpk, jsGet_cons]
        rw [if_pos (by simp)]
      · rw [if_neg hpk, jsGet_cons, if_neg hpk]
        have hb : (p.1 == k) = false := Bool.eq_false_iff.mpr hpk
        simp only [jsHas, List.any_cons, hb, Bool.false_or] at h
        exact ih h
  · rw [jsSet, if_neg h]
    have hb : ∀ p ∈ m, (p.1 == k) = false := by
      intro p hp
      cases hcc : (p.1 == k) with
      | false => rfl
      | true => exact absurd (List.any_eq_true.mpr ⟨p, hp, hcc⟩) h
    clear h
    induction m with
    | nil =>
      rw [List.nil_append, jsGet_cons]
      rw [if_pos (by simp)]
    | cons p rest ih =>
      rw [List.cons_append, jsGet_cons,
        if_neg (by
          rw [hb p (List.mem_cons_self _ _)]
          exact Bool.false_ne_true)]
      exact ih (fun q hq => hb q (List.mem_cons_of_mem _ hq))

theorem mem_jsSet_key {α : Type} (m : List (String × α)) (k : String) (v : α) :
    ∀ p ∈ jsSet m k v, p.1 = k → p.2 = v := by
  intro p hp hk
  rw [jsSet] at hp
  by_cases h : jsHas m k = true
  · rw [if_pos h] at hp
    rcases List.mem_map.mp hp with ⟨q, _, hq⟩
    by_cases hqk : (q.1 == k) = true
    · rw [if_pos hqk] at hq; rw [← hq]
    · rw [if_neg hqk] at hq
      subst hq
      exact absurd (by simp [hk]) hqk
  · rw [if_neg h] at hp
    rcases List.mem_append.mp hp with hp | hp
    · exact absurd (List.any_eq_true.mpr ⟨p, hp, by simp [hk]⟩) h
    · simp only [List.mem_singleton] at hp; subst hp; rfl

theorem jsGet_delete_ne (m : List (String × CacheEntry)) (k0 key : String)
    (h : k0 ≠ key) : jsGet (jsDelete m k0) key = jsGet m key := by
  induction m with
  | nil => rfl
  | cons p rest ih =>
    rw [jsDelete_cons]
    by_cases hp0 : (p.1 != k0) = true
    · rw [if_pos hp0, jsGet_cons, jsGet_cons]
      by_cases hpk : (p.1 == key) = true
      · rw [if_pos hpk, if_pos hpk]
      · rw [if_neg hpk, if_neg hpk]; exact ih
    · rw [if_neg hp0]
      have hpk : (p.1 == key) = false := by
        have hpe : p.1 = k0 := by simpa using hp0
        simp [hpe, h]
      conv_rhs => rw [jsGet_cons]
      rw [if_neg (by rw [hpk]; exact Bool.false_ne_true)]
      exact ih

theorem foldOldest_pair (R : String → Nat → Prop) :
    ∀ (l : List (String × CacheEntry)) (acc : Option String × Option Nat),
    (∀ k, acc.1 = some k → ∃ t, acc.2 = some t ∧ R k t) →
    (∀ p ∈ l, R p.1 p.2.ts) →
    ∀ k, (l.foldl oldestStep acc).1 = some k →
      ∃ t, (l.foldl oldestStep acc).2 = some t ∧ R k t := by
  intro l
  induction l with
  | nil => intro acc hacc _ k hk; exact hacc k hk
  | cons p rest ih =>
    intro acc hacc hl k hk
    rw [List.foldl_cons] at hk ⊢
    refine ih (oldestStep acc p) ?_ (fun q hq => hl q (List.mem_cons_of_mem _ hq)) k hk
    intro k' hk'
    have hp := hl p (List.mem_cons_self _ _)
    obtain ⟨ok, oacc⟩ := acc
    cases oacc with
    | none =>
      simp only [oldestStep] at hk' ⊢
      have he : p.1 = k' := by simpa using hk'
      exact ⟨p.2.ts, rfl, he ▸ hp⟩
    | some o =>
      simp only [oldestStep] at hk' ⊢
      by_cases hlt : p.2.ts < o
      · rw [if_pos hlt] at hk' ⊢
        have he : p.1 = k' := by simpa using hk'
        exact ⟨p.2.ts, rfl, he ▸ hp⟩
      · rw [if_neg hlt] at hk' ⊢
        exact hacc k' hk'

theorem foldOldest_le_acc :
    ∀ (l : List (String × CacheEntry)) (acc : Option String × Option Nat)
      (t' o : Nat),
    (l.foldl oldestStep acc).2 = some t' → acc.2 = some o → t' ≤ o := by
  intro l
  induction l with
  | nil =>
    intro acc t' o h1 h2
    rw [List.foldl_nil] at h1
    rw [h1] at h2
    exact le_of_eq (Option.some.inj h2)
  | cons p rest ih =>
    intro acc t' o h1 h2
    rw [List.foldl_cons] at h1
    obtain ⟨ok, oacc⟩ := acc
    have h2' : oacc = some o := h2
    subst h2'
    simp only [oldestStep] at h1
    by_cases hlt : p.2.ts < o
    · rw [if_pos hlt] at h1
      exact le_trans (ih _ t' p.2.ts h1 rfl) (le_of_lt hlt)
    · rw [if_neg hlt] at h1
      exact ih _ t' o h1 rfl

theorem foldOldest_le_mem :
    ∀ (l : List (String × CacheEntry)) (acc : Option String × Option Nat)
      (t' : Nat),
    (l.foldl oldestStep acc).2 = some t' → ∀ p ∈ l, t' ≤ p.2.ts := by
  intro l
  induction l with
  | nil => intro _ _ _ p hp; exact absurd hp (List.not_mem_nil p)
  | cons q rest ih =>
    intro acc t' h1 p hp
    rw [List.foldl_cons] at h1
    rcases List.mem_cons.mp hp with rfl | hp
    · obtain ⟨ok, oacc⟩ := acc
      cases oacc with
      | none =>
        exact foldOldest_le_acc rest _ t' p.2.ts h1 (by simp [oldestStep])
      | some o =>
        by_cases hlt : p.2.ts < o
        · refine foldOldest_le_acc rest _ t' p.2.ts h1 ?_
          simp only [oldestStep]
          rw [if_pos hlt]
        · refine le_trans (foldOldest_le_acc rest _ t' o h1 ?_)
            (le_of_not_lt hlt)
          simp only [oldestStep]
          rw [if_neg hlt]
    · exact ih (oldestStep acc q) t' h1 p hp

/-- If every entry keyed `key` in `m` carries timestamp `Tval` while some
entry of `m` is strictly older, the oldest-entry scan does not pick `key`. -/
theorem findOldest_ne (m : List (String × CacheEntry)) (key : String) (Tval : Nat)
    (hkeyval : ∀ p ∈ m, p.1 = key → p.2.ts = Tval)
    (hother : ∃ p ∈ m, p.2.ts < Tval) :
    findOldestKey m ≠ some key := by
  intro hcontra
  obtain ⟨t', ht', hR⟩ := foldOldest_pair (fun k t => k = key → t = Tval) m
    (none, none) (by intro k hk; exact absurd hk (by simp)) hkeyval key hcontra
  obtain ⟨p, hp, hplt⟩ := hother
  have hle := foldOldest_le_mem m (none, none) t' ht' p hp
  have heq : t' = Tval := hR rfl
  omega

/-- C6: a cache entry written at time `T` is returned by a lookup at
`T + TTL − 1` ms and is not returned at `T + TTL + 1` ms (TTL = 60 000 ms),
assuming the well-formedness the real `Map` guarantees (unique keys) and
that all pre-existing entries were written strictly before `T`. -/
theorem c6_cache_ttl_boundary (cache : List (String × CacheEntry)) (key : String)
    (articles : List NewsArticle) (trace : List String) (T : Nat)
    (hnd : (cache.map Prod.fst).Nodup)
    (hts : ∀ p ∈ cache, p.2.ts < T) :
    getCached (setCached cache key articles trace T) key (T + CACHE_TTL_MS - 1) =
      some ⟨T, articles, trace⟩ ∧
    getCached (setCached cache key articles trace T) key (T + CACHE_TTL_MS + 1) =
      none := by
  have hgetm : jsGet (jsSet cache key ⟨T, articles, trace⟩) key =
      some ⟨T, articles, trace⟩ := jsGet_set_self cache key _
  have hkeyval : ∀ p ∈ jsSet cache key ⟨T, articles, trace⟩, p.1 = key →
      p.2.ts = T := by
    intro p hp hk
    rw [mem_jsSet_key cache key _ p hp hk]
  have hgetS : jsGet (setCached cache key articles trace T) key =
      some ⟨T, articles, trace⟩ := by
    rw [setCached]
    by_cases hlen : MAX_CACHE_ENTRIES < (jsSet cache key ⟨T, articles, trace⟩).length
    · rw [if_pos hlen]
      -- an entry strictly older than T exists among the ≥ 101 entries
      have hother : ∃ p ∈ jsSet cache key ⟨T, articles, trace⟩, p.2.ts < T := by
        rw [jsSet]
        by_cases h : jsHas cache key = true
        · rw [if_pos h]
          -- cache keeps its length; it has ≥ 101 entries with unique keys,
          -- so some entry is not keyed `key` and survives unchanged
          have hlen2 : 2 ≤ cache.length := by
            rw [jsSet, if_pos h, List.length_map] at hlen
            have := hlen
            rw [MAX_CACHE_ENTRIES] at this
            omega
          obtain ⟨p, hp, hpk⟩ : ∃ p ∈ cache, ¬(p.1 == key) = true := by
            match cache, hlen2 with
            | p1 :: p2 :: rest, _ =>
              by_cases h1 : (p1.1 == key) = true
              · refine ⟨p2, by simp, ?_⟩
                have hne : p1.1 ∉ (p2 :: rest).map Prod.fst :=
                  (List.nodup_cons.mp hnd).1
                intro h2
                exact hne (by
                  have e1 : p1.1 = key := by simpa using h1
                  have e2 : p2.1 = key := by simpa using h2
                  rw [e1, ← e2]
                  simp)
              · exact ⟨p1, by simp, h1⟩
          refine ⟨p, List.mem_map.mpr ⟨p, hp, by rw [if_neg hpk]⟩, hts p hp⟩
        · rw [if_neg h]
          have hlen2 : 1 ≤ cache.length := by
            rw [jsSet, if_neg h] at hlen
            rw [MAX_CACHE_ENTRIES] at hlen
            simp only [List.length_append, List.length_singleton] at hlen
            omega
          match cache, hlen2 with
          | p1 :: rest, _ =>
            exact ⟨p1, by simp, hts p1 (by simp)⟩
      cases hfo : findOldestKey (jsSet cache key ⟨T, articles, trace⟩) with
      | none => simp only [evictOldest, hfo]; exact hgetm
      | some k0 =>
        simp only [evictOldest, hfo]
        by_cases hk0 : (k0 == "") = true
        · rw [if_pos hk0]; exact hgetm
        · rw [if_neg hk0]
          have hk0ne : k0 ≠ key := by
            intro hcontra
            exact findOldest_ne _ key T hkeyval hother (hcontra ▸ hfo)
          rw [jsGet_delete_ne _ k0 key hk0ne]
          exact hgetm
    · rw [if_neg hlen]; exact hgetm
  constructor
  · simp only [getCached, hgetS]
    rw [if_pos (by unfold CACHE_TTL_MS; omega)]
  · simp only [getCached, hgetS]
    rw [if_neg (by unfold CACHE_TTL_MS; omega)]

/-- Witness for `c6_cache_ttl_boundary` at a concrete input. -/
theorem c6_cache_ttl_boundary_witness :
    getCached (setCached [] "k" [{ title := "t" }] ["web:1"] 1000) "k" 60999 =
      some ⟨1000, [{ title := "t" }], ["web:1"]⟩ ∧
    getCached (setCached [] "k" [{ title := "t" }] ["web:1"] 1000) "k" 61001 =
      none :=
  c6_cache_ttl_boundary [] "k" [{ title := "t" }] ["web:1"] 1000
    (by simp) (by simp)

/-! ## Claim C10 (amended part): lookups never serve entries past the TTL
measured from their last write. The counterexample to C10 as stated is given
with the orchestrator model below. -/

/-- A successful cache lookup always returns an entry younger than the TTL
relative to its `ts` field — the time of its **last write**. -/
theorem c10_cache_age_bound (cache : List (String × CacheEntry)) (key : String)
    (now : Nat) (e : CacheEntry)
    (h : getCached cache key now = some e) : now - e.ts < CACHE_TTL_MS := by
  simp only [getCached] at h
  cases hg : jsGet cache key with
  | none => rw [hg] at h; exact absurd h (by simp)
  | some entry =>
    rw [hg] at h
    simp only at h
    by_cases hc : now - entry.ts < CACHE_TTL_MS
    · rw [if_pos hc] at h
      cases h
      exact hc
    · rw [if_neg hc] at h
      exact absurd h (by simp)

/-- Witness for `c10_cache_age_bound` at a concrete input. -/
theorem c10_cache_age_bound_witness :
    59999 - (⟨0, [], []⟩ : CacheEntry).ts < CACHE_TTL_MS :=
  c10_cache_age_bound [("k", ⟨0, [], []⟩)] "k" 59999 ⟨0, [], []⟩ (by decide)

/-! ## SHA-1 and `stableId` (`src/app/api/news/route.ts:251`)

`stableId` hashes with Node's `createHash('sha1')`, hex-encoded, truncated
to 16 characters. SHA-1 is implemented below over UTF-8 bytes with plain
`Nat` arithmetic (32-bit words kept below `2^32` with explicit `%`). -/

/-- UTF-8 encoding of one character (code point → bytes). -/
def utf8Char (c : Char) : List Nat :=
  let n := c.toNat
  if n < 128 then [n]
  else if n < 2048 then [192 + n / 64, 128 + n % 64]
  else if n < 65536 then [224 + n / 4096, 128 + (n / 64) % 64, 128 + n % 64]
  else [240 + n / 262144, 128 + (n / 4096) % 64, 128 + (n / 64) % 64, 128 + n % 64]

def utf8Bytes (s : String) : List Nat := (s.toList.map utf8Char).flatten

/-- 32-bit left rotation (valid for `x < 2^32`, `k < 32`). -/
def rotl32 (k x : Nat) : Nat := (x * 2 ^ k) % 4294967296 + x / 2 ^ (32 - k)

/-- Split a byte list into 64-byte blocks (structurally recursive). -/
def chunk64Aux : List Nat → List Nat → List (List Nat)
  | [], acc => if acc.isEmpty then [] else [acc.reverse]
  | b :: rest, acc =>
    if acc.length = 63 then (acc.reverse ++ [b]) :: chunk64Aux rest []
    else chunk64Aux rest (b :: acc)

def chunk64 (l : List Nat) : List (List Nat) := chunk64Aux l []

/-- Big-endian 32-bit words from bytes. -/
def toWords : List Nat → List Nat
  | b0 :: b1 :: b2 :: b3 :: rest =>
    (b0 * 16777216 + b1 * 65536 + b2 * 256 + b3) :: toWords rest
  | _ => []

/-- Extend the 16-word schedule to 80 words. -/
def extendW : List Nat → Nat → List Nat
  | w, 0 => w
  | w, n + 1 =>
    let len := w.length
    let x := Nat.xor (Nat.xor (w.getD (len - 3) 0) (w.getD (len - 8) 0))
      (Nat.xor (w.getD (len - 14) 0) (w.getD (len - 16) 0))
    extendW (w ++ [rotl32 1 x]) n

/-- The SHA-1 round function (`4294967295 - b` is bitwise NOT below `2^32`). -/
def sha1F (i b c d : Nat) : Nat :=
  if i < 20 then Nat.lor (Nat.land b c) (Nat.land (4294967295 - b) d)
  else if i < 40 then Nat.xor (Nat.xor b c) d
  else if i < 60 then Nat.lor (Nat.lor (Nat.land b c) (Nat.land b d)) (Nat.land c d)
  else Nat.xor (Nat.xor b c) d

def sha1K (i : Nat) : Nat :=
  if i < 20 then 1518500249 else if i < 40 then 1859775393
  else if i < 60 then 2400959708 else 3395469782

def sha1Block (h0 h1 h2 h3 h4 : Nat) (block : List Nat) :
    Nat × Nat × Nat × Nat × Nat :=
  let w := extendW (toWords block) 64
  let st := (List.range 80).foldl
    (fun (st : Nat × Nat × Nat × Nat × Nat) i =>
      let temp := (rotl32 5 st.1 + sha1F i st.2.1 st.2.2.1 st.2.2.2.1 +
        st.2.2.2.2 + sha1K i + w.getD i 0) % 4294967296
      (temp, st.1, rotl32 30 st.2.1, st.2.2.1, st.2.2.2.1))
    (h0, h1, h2, h3, h4)
  ((h0 + st.1) % 4294967296, (h1 + st.2.1) % 4294967296,
   (h2 + st.2.2.1) % 4294967296, (h3 + st.2.2.2.1) % 4294967296,
   (h4 + st.2.2.2.2) % 4294967296)

/-- SHA-1 padding: `0x80`, zeros to 56 mod 64, 64-bit big-endian bit length. -/
def sha1Pad (msg : List Nat) : List Nat :=
  let len := msg.length
  let padZeros := (64 + 56 - ((len + 1) % 64)) % 64
  let bitLen := len * 8
  msg ++ [128] ++ List.replicate padZeros 0 ++
    [bitLen / 72057594037927936 % 256, bitLen / 281474976710656 % 256,
     bitLen / 1099511627776 % 256, bitLen / 4294967296 % 256,
     bitLen / 16777216 % 256, bitLen / 65536 % 256,
     bitLen / 256 % 256, bitLen % 256]

def hexDigitChar (n : Nat) : Char :=
  if n < 10 then Char.ofNat (48 + n) else Char.ofNat (87 + n)

def word32Hex (x : Nat) : List Char :=
  [hexDigitChar (x / 268435456 % 16), hexDigitChar (x / 16777216 % 16),
   hexDigitChar (x / 1048576 % 16), hexDigitChar (x / 65536 % 16),
   hexDigitChar (x / 4096 % 16), hexDigitChar (x / 256 % 16),
   hexDigitChar (x / 16 % 16), hexDigitChar (x % 16)]

/-- `createHash('sha1').update(key).digest('hex')`. -/
def sha1Hex (s : String) : String :=
  let blocks := chunk64 (sha1Pad (utf8Bytes s))
  let h := blocks.foldl
    (fun (h : Nat × Nat × Nat × Nat × Nat) block =>
      sha1Block h.1 h.2.1 h.2.2.1 h.2.2.2.1 h.2.2.2.2 block)
    (1732584193, 4023233417, 2562383102, 271733878, 3285377520)
  String.mk (word32Hex h.1 ++ word32Hex h.2.1 ++ word32Hex h.2.2.1 ++
    word32Hex h.2.2.2.1 ++ word32Hex h.2.2.2.2)

/-- `stableId(prefix, url, fallbackKey)`: hash the URL, else the fallback key
(the title at the call sites), else a `Math.random()` string — the latter
modelled by the explicit `rand` argument, since two executions draw
different random values. `undefined` and `''` are both falsy. -/
def stableId (pre url fallbackKey rand : String) : String :=
  let key := if url ≠ "" then url else if fallbackKey ≠ "" then fallbackKey else rand
  pre ++ "_" ++ String.mk ((sha1Hex key).toList.take 16)

set_option maxRecDepth 8000 in
/-- C9 counterexample: a raw provider item with no URL and no title (both
falsy) is assigned an id hashed from the `Math.random()` fallback, so two
normalization runs over that same item yield different ids — refuting `id`
determinism as universally stated. -/
theorem c9_counterexample :
    stableId "tavily" "" "" "0.1" ≠ stableId "tavily" "" "" "0.2" := by
  decide

/-- C9 amended: whenever the item carries a non-empty source URL or a
non-empty title, `stableId` is independent of the random fallback, so the
same item always maps to the same id across requests. -/
theorem c9_stable_id_deterministic (pre url fallbackKey r1 r2 : String)
    (h : url ≠ "" ∨ fallbackKey ≠ "") :
    stableId pre url fallbackKey r1 = stableId pre url fallbackKey r2 := by
  rcases h with h | h
  · simp [stableId, h]
  · by_cases hu : url = ""
    · simp [stableId, hu, h]
    · simp [stableId, hu]

/-- Witness for `c9_stable_id_deterministic` at a concrete input. -/
theorem c9_stable_id_deterministic_witness :
    stableId "tavily" "https://rappler.com/news/a" "Some headline" "0.1" =
      stableId "tavily" "https://rappler.com/news/a" "Some headline" "0.2" :=
  c9_stable_id_deterministic "tavily" "https://rappler.com/news/a"
    "Some headline" "0.1" "0.2" (Or.inl (by decide))

/-! ## TL;DR endpoint (`src/app/api/tldr/route.ts`)

Rate-limit configuration at its defaults (`TLDR_RATE_WINDOW_SECONDS = 60`,
`TLDR_RATE_MAX = 10`), and no Upstash configuration, so `checkRateLimit`
falls back to the in-memory fixed-window limiter. -/

def RL_WINDOW_SECONDS : Nat := 60

def RL_MAX_REQUESTS : Nat := 10

structure RateLimitResult where
  allowed : Bool
  remaining : Nat
  resetSec : Nat
  deriving DecidableEq, Repr

/-- One `memBuckets` entry: `{ count, resetSec }`. -/
structure RLEntry where
  count : Nat
  resetSec : Nat
  deriving DecidableEq, Repr

/-- `checkRateLimitMemory`: fixed-window counter per client identity. The
bucket is reset once `nowSec >= entry.resetSec`; the incremented count must
stay within the limit. Returns the result and the updated bucket map. -/
def checkRateLimitMemory (buckets : List (String × RLEntry)) (ip : String)
    (nowSec windowSec limit : Nat) : RateLimitResult × List (String × RLEntry) :=
  let entry :=
    match jsGet buckets ip with
    | some e => if e.resetSec ≤ nowSec then (⟨0, nowSec + windowSec⟩ : RLEntry) else e
    | none => (⟨0, nowSec + windowSec⟩ : RLEntry)
  let entry : RLEntry := ⟨entry.count + 1, entry.resetSec⟩
  ({ allowed := entry.count ≤ limit, remaining := limit - entry.count,
     resetSec := entry.resetSec }, jsSet buckets ip entry)

/-- `checkRateLimit` without Upstash configuration: the `limit <= 0` guard
(`Number.MAX_SAFE_INTEGER` remaining), else the in-memory limiter. -/
def checkRateLimit (buckets : List (String × RLEntry)) (ip : String)
    (nowSec windowSec limit : Nat) : RateLimitResult × List (String × RLEntry) :=
  if limit = 0 then
    ({ allowed := true, remaining := 9007199254740991,
       resetSec := nowSec + windowSec }, buckets)
  else checkRateLimitMemory buckets ip nowSec windowSec limit

/-! ### The heuristic fallback TL;DR (`generateFallbackTldr`) -/

/-- Case-insensitive anchored match of a lowercase pattern; returns the
consumed original characters and the remainder. -/
def matchCI : List Char → List Char → Option (List Char × List Char)
  | [], cs => some ([], cs)
  | _ :: _, [] => none
  | p :: ps, c :: cs =>
    if p == c.toLower then
      match matchCI ps cs with
      | some r => some (c :: r.1, r.2)
      | none => none
    else none

/-- Try regex alternatives in order at one position. -/
def matchAltsAt (alts : List (List Char)) (cs : List Char) :
    Option (List Char × List Char) :=
  match alts with
  | [] => none
  | a :: rest =>
    match matchCI a cs with
    | some r => some r
    | none => matchAltsAt rest cs

/-- Leftmost match of an alternation: `(before, matched, after)`. -/
def searchAlts (alts : List (List Char)) : List Char →
    Option (List Char × List Char × List Char)
  | [] =>
    match matchAltsAt alts [] with
    | some r => some ([], r.1, r.2)
    | none => none
  | c :: cs =>
    match matchAltsAt alts (c :: cs) with
    | some r => some ([], r.1, r.2)
    | none =>
      match searchAlts alts cs with
      | some r => some (c :: r.1, r.2.1, r.2.2)
      | none => none

/-- JavaScript `\w` (`[A-Za-z0-9_]`). -/
def isWordChar (c : Char) : Bool := c.isAlphanum || c == '_'

/-- `[\d,.]`. -/
def isPesoChar (c : Char) : Bool := c.isDigit || c == ',' || c == '.'

/-- `/₱[\d,.]+(?:\s?(?:M|B|million|billion))?/i`: leftmost peso amount. -/
def pesoMatch : List Char → Option (List Char)
  | [] => none
  | c :: rest =>
    if c == '₱' then
      let digitsPart := rest.takeWhile isPesoChar
      if digitsPart.isEmpty then pesoMatch rest
      else
        let core := c :: digitsPart
        let after := rest.drop digitsPart.length
        let sfx :=
          match after with
          | [] => ([] : List Char)
          | a :: arest =>
            let wsPart := if isWsChar a then [a] else []
            let tailWs := if isWsChar a then arest else a :: arest
            match matchAltsAt
                (["m".toList, "b".toList, "million".toList, "billion".toList])
                tailWs with
            | some r => wsPart ++ r.1
            | none => []
        some (core ++ sfx)
    else pesoMatch rest

/-- The role-word alternation of the "who" regex, in source order. -/
def PERSON_ALTS : List (List Char) :=
  ["mayor", "governor", "congressman", "congresswoman", "senator",
   "official", "undersecretary", "secretary", "councilor"].map String.toList

/-- `/(mayor|governor|…)[\s\w\-]*/i`: role word plus greedy tail. -/
def personMatch (cs : List Char) : Option (List Char) :=
  match searchAlts PERSON_ALTS cs with
  | some r =>
    some (r.2.1 ++ r.2.2.takeWhile (fun c => isWsChar c || isWordChar c || c == '-'))
  | none => none

/-- The place alternation, in source order. -/
def PLACE_ALTS : List (List Char) :=
  ["manila", "cebu", "davao", "quezon", "pampanga", "bicol", "mindanao",
   "marikina", "pasig", "makati", "ncr", "metro manila"].map String.toList

/-- Alternatives at one position whose end also sits on a `\b` boundary. -/
def matchAltsAtWordEnd (alts : List (List Char)) (cs : List Char) :
    Option (List Char) :=
  match alts with
  | [] => none
  | a :: rest =>
    match matchCI a cs with
    | some r =>
      if (match r.2 with | [] => true | x :: _ => !isWordChar x) then some r.1
      else matchAltsAtWordEnd rest cs
    | none => matchAltsAtWordEnd rest cs

/-- `/\b(manila|cebu|…)\b/i`: leftmost word-bounded place name. `prev` is the
character before the current position (`none` at the string start). -/
def placeSearch (alts : List (List Char)) : Option Char → List Char →
    Option (List Char)
  | _, [] => none
  | prev, c :: rest =>
    let boundaryOk := match prev with | none => true | some pc => !isWordChar pc
    if boundaryOk then
      match matchAltsAtWordEnd alts (c :: rest) with
      | some took => some took
      | none => placeSearch alts (some c) rest
    else placeSearch alts (some c) rest

/-- `generateFallbackTldr(title, description)`: the no-LLM heuristic summary
(who / how much / where extracted with the three regexes). -/
def generateFallbackTldr (title description : String) : String :=
  let text := jsTrim (title ++ " " ++ description)
  if text == "" then "Maikling buod: walang sapat na detalye."
  else
    let cs := text.toList
    let who :=
      match personMatch cs with
      | some m => jsTrim (String.mk m)
      | none => "Isang opisyal"
    let amt :=
      match pesoMatch cs with
      | some m => " na nagkakahalaga ng " ++ String.mk m
      | none => ""
    let whereS :=
      match placeSearch PLACE_ALTS none cs with
      | some m => " sa " ++ String.mk m
      | none => ""
    let out := who ++ " ang sangkot sa posibleng katiwalian" ++ amt ++ whereS ++ "."
    if 200 < out.length then String.mk (out.toList.take 197) ++ "..." else out

/-- `/^tl;?dr[:\-]\s*/i`: `some` of the stripped remainder when the head
matches, else `none`. -/
def stripTldrHead (s : String) : Option String :=
  match s.toList with
  | t :: l :: rest =>
    if t.toLower == 't' && l.toLower == 'l' then
      let rest := match rest with
        | ';' :: r => r
        | r => r
      match rest with
      | d :: r :: sep :: tail =>
        if d.toLower == 'd' && r.toLower == 'r' && (sep == ':' || sep == '-') then
          some (String.mk (tail.dropWhile isWsChar))
        else none
      | _ => none
    else none
  | _ => none

/-- `normalizeTldr`: strip a leading `TL;DR:` marker, leading markdown stars
and up to three backticks, trim, and cap at 280 characters. -/
def normalizeTldr (text : String) : String :=
  if text == "" then ""
  else
    let out := jsTrim text
    let out := match stripTldrHead out with
      | some stripped => jsTrim stripped
      | none => out
    let cs := out.toList
    let cs := if cs.headD ' ' == '*' then
        (cs.dropWhile (· == '*')).dropWhile isWsChar
      else cs
    let bt := Char.ofNat 96
    let n := (cs.takeWhile (· == bt)).length
    let cs := cs.drop (min n 3)
    let out := jsTrim (String.mk cs)
    if 280 < out.length then String.mk (out.toList.take 277) ++ "..." else out

/-- The response shape of the TL;DR endpoint. -/
structure TldrResponse where
  status : Nat
  tldr : Option String := none
  error : Option String := none
  fallback : Bool := false
  rateLimited : Bool := false
  deriving DecidableEq, Repr

/-- The `POST` handler of `/api/tldr`: body validation, rate-limit gate
(heuristic fallback with HTTP 429 when limited), then the Gemini call —
whose outcome (`extractText` of the upstream response, or the thrown error)
is the explicit `geminiOutcome` argument. -/
def POST (titleRaw descriptionRaw _contentRaw : String) (ip : String)
    (buckets : List (String × RLEntry)) (nowSec : Nat)
    (geminiKey : Option String) (geminiOutcome : Except String String) :
    TldrResponse × List (String × RLEntry) :=
  let title := jsTrim titleRaw
  let description := jsTrim descriptionRaw
  if title == "" && description == "" then
    ({ status := 400, error := some "Title or description is required" }, buckets)
  else
    let r := checkRateLimit buckets ip nowSec RL_WINDOW_SECONDS RL_MAX_REQUESTS
    if !r.1.allowed then
      ({ status := 429, tldr := some (generateFallbackTldr title description),
         fallback := true, rateLimited := true }, r.2)
    else
      match geminiKey with
      | none =>
        ({ status := 200, tldr := some (generateFallbackTldr title description),
           fallback := true }, r.2)
      | some _ =>
        match geminiOutcome with
        | .ok text =>
          let tldr := normalizeTldr (jsTrim text)
          let tldr := if tldr.length < 10 then generateFallbackTldr title description
            else tldr
          ({ status := 200, tldr := some tldr }, r.2)
        | .error _ =>
          ({ status := 200, tldr := some (generateFallbackTldr title description),
             fallback := true }, r.2)

/-- Run a sequence of `POST` requests (same body, ip and upstream outcome)
at the given times, threading the rate-limiter state. -/
def runPosts (titleRaw ip : String) (geminiKey : Option String)
    (geminiOutcome : Except String String) :
    List Nat → List (String × RLEntry) →
    List TldrResponse × List (String × RLEntry)
  | [], buckets => ([], buckets)
  | t :: ts, buckets =>
    let r := POST titleRaw "" "" ip buckets t geminiKey geminiOutcome
    let rest := runPosts titleRaw ip geminiKey geminiOutcome ts r.2
    (r.1 :: rest.1, rest.2)

/-! ### Evaluation lemmas for `POST` under the in-memory limiter -/

/-- A request that finds a live bucket: the count increments, and the
request is allowed exactly when the incremented count stays within 10. -/
theorem POST_eval_entry (titleRaw ip gk g : String)
    (buckets : List (String × RLEntry)) (t : Nat) (e : RLEntry)
    (htitle : (jsTrim titleRaw == "") = false)
    (hget : jsGet buckets ip = some e)
    (hkeep : ¬ e.resetSec ≤ t)
    (hg : ¬ (normalizeTldr (jsTrim g)).length < 10) :
    POST titleRaw "" "" ip buckets t (some gk) (.ok g) =
      (if e.count + 1 ≤ 10 then
         { status := 200, tldr := some (normalizeTldr (jsTrim g)) }
       else
         { status := 429, tldr := some (generateFallbackTldr (jsTrim titleRaw) ""),
           fallback := true, rateLimited := true },
       jsSet buckets ip ⟨e.count + 1, e.resetSec⟩) := by
  by_cases hc : e.count + 1 ≤ 10
  · rw [if_pos hc]
    have hd : decide (e.count + 1 ≤ 10) = true := decide_eq_true hc
    simp only [POST, checkRateLimit, checkRateLimitMemory, RL_WINDOW_SECONDS,
      RL_MAX_REQUESTS, hget, htitle, Bool.false_and, Bool.false_eq_true,
      if_false, if_neg hkeep, hd, Bool.not_true, if_neg hg]
    simp
  · rw [if_neg hc]
    have hd : decide (e.count + 1 ≤ 10) = false :=
      decide_eq_false hc
    simp only [POST, checkRateLimit, checkRateLimitMemory, RL_WINDOW_SECONDS,
      RL_MAX_REQUESTS, hget, htitle, Bool.false_and, Bool.false_eq_true,
      if_false, if_neg hkeep, hd, Bool.not_false, if_true]
    simp [show jsTrim "" = "" from rfl]

/-- A request that finds no bucket (or below, an expired one): a fresh
window starts and the request is allowed with count 1. -/
theorem POST_eval_fresh (titleRaw ip gk g : String)
    (buckets : List (String × RLEntry)) (t : Nat)
    (htitle : (jsTrim titleRaw == "") = false)
    (hget : jsGet buckets ip = none)
    (hg : ¬ (normalizeTldr (jsTrim g)).length < 10) :
    POST titleRaw "" "" ip buckets t (some gk) (.ok g) =
      ({ status := 200, tldr := some (normalizeTldr (jsTrim g)) },
       jsSet buckets ip ⟨1, t + 60⟩) := by
  have hd : decide (0 + 1 ≤ 10) = true := by decide
  simp only [POST, checkRateLimit, checkRateLimitMemory, RL_WINDOW_SECONDS,
    RL_MAX_REQUESTS, hget, htitle, Bool.false_and, Bool.false_eq_true,
    if_false, hd, Bool.not_true, if_neg hg]
  simp

/-- A request that finds an expired bucket: the window resets and the
request is allowed with count 1. -/
theorem POST_eval_reset (titleRaw ip gk g : String)
    (buckets : List (String × RLEntry)) (t : Nat) (e : RLEntry)
    (htitle : (jsTrim titleRaw == "") = false)
    (hget : jsGet buckets ip = some e)
    (hreset : e.resetSec ≤ t)
    (hg : ¬ (normalizeTldr (jsTrim g)).length < 10) :
    POST titleRaw "" "" ip buckets t (some gk) (.ok g) =
      ({ status := 200, tldr := some (normalizeTldr (jsTrim g)) },
       jsSet buckets ip ⟨1, t + 60⟩) := by
  have hd : decide (0 + 1 ≤ 10) = true := by decide
  simp only [POST, checkRateLimit, checkRateLimitMemory, RL_WINDOW_SECONDS,
    RL_MAX_REQUESTS, hget, htitle, Bool.false_and, Bool.false_eq_true,
    if_false, if_pos hreset, hd, Bool.not_true, if_neg hg]
  simp

/-- Requests within one window accumulate the bucket count one by one. -/
theorem runPosts_window (titleRaw ip gk g : String) (t0 : Nat)
    (htitle : (jsTrim titleRaw == "") = false)
    (hg : ¬ (normalizeTldr (jsTrim g)).length < 10) :
    ∀ (ts : List Nat) (c : Nat),
    (∀ t ∈ ts, t < t0 + 60) →
    runPosts titleRaw ip (some gk) (.ok g) ts [(ip, ⟨c, t0 + 60⟩)] =
      ((List.range ts.length).map (fun i =>
         if c + 1 + i ≤ 10 then
           ({ status := 200, tldr := some (normalizeTldr (jsTrim g)) } : TldrResponse)
         else
           { status := 429, tldr := some (generateFallbackTldr (jsTrim titleRaw) ""),
             fallback := true, rateLimited := true }),
       [(ip, ⟨c + ts.length, t0 + 60⟩)]) := by
  intro ts
  induction ts with
  | nil => intro c _; simp [runPosts]
  | cons t ts ih =>
    intro c hts
    have hkeep : ¬ (⟨c, t0 + 60⟩ : RLEntry).resetSec ≤ t := by
      have := hts t (List.mem_cons_self _ _)
      simp only []
      omega
    have hpost := POST_eval_entry titleRaw ip gk g [(ip, ⟨c, t0 + 60⟩)] t
      ⟨c, t0 + 60⟩ htitle (by simp [jsGet]) hkeep hg
    have hset : jsSet [(ip, (⟨c, t0 + 60⟩ : RLEntry))] ip ⟨c + 1, t0 + 60⟩ =
        [(ip, ⟨c + 1, t0 + 60⟩)] := by
      simp [jsSet, jsHas]
    simp only [runPosts, hpost, hset]
    rw [ih (c + 1) (fun q hq => hts q (List.mem_cons_of_mem _ hq))]
    have hrange : (List.range (ts.length + 1)) = 0 :: (List.range ts.length).map Nat.succ :=
      List.range_succ_eq_map ts.length
    rw [List.length_cons, hrange]
    simp only [List.map_cons, List.map_map, Prod.mk.injEq, List.cons.injEq]
    refine ⟨⟨?_, ?_⟩, ?_⟩
    · norm_num
    · apply List.map_congr_left
      intro i _
      simp only [Function.comp]
      exact if_congr (by omega) rfl rfl
    · have he : c + 1 + ts.length = c + (ts.length + 1) := by omega
      rw [he]
      simp

/-- C7: with `limit = 10` and `window = 60 s`, from a cold limiter the first
10 requests of one client within a window are served normally, the 11th is
rejected with the HTTP 429 heuristic-fallback response (`rateLimited`,
`fallback`, heuristic `tldr`), and a request at or after the window reset is
allowed again. -/
theorem c7_rate_limiter_boundary (titleRaw ip gk g : String) (t0 tNext : Nat)
    (ts : List Nat)
    (htitle : (jsTrim titleRaw == "") = false)
    (hg : ¬ (normalizeTldr (jsTrim g)).length < 10)
    (hlen : ts.length = 10)
    (hts : ∀ t ∈ ts, t < t0 + 60)
    (hnext : t0 + 60 ≤ tNext) :
    (runPosts titleRaw ip (some gk) (.ok g) (t0 :: ts) []).1 =
      List.replicate 10
          ({ status := 200, tldr := some (normalizeTldr (jsTrim g)) } : TldrResponse)
        ++ [{ status := 429,
              tldr := some (generateFallbackTldr (jsTrim titleRaw) ""),
              fallback := true, rateLimited := true }] ∧
    (POST titleRaw "" "" ip (runPosts titleRaw ip (some gk) (.ok g) (t0 :: ts) []).2
        tNext (some gk) (.ok g)).1 =
      { status := 200, tldr := some (normalizeTldr (jsTrim g)) } := by
  have hfresh := POST_eval_fresh titleRaw ip gk g [] t0 htitle (by simp [jsGet]) hg
  have hset0 : jsSet ([] : List (String × RLEntry)) ip ⟨1, t0 + 60⟩ =
      [(ip, ⟨1, t0 + 60⟩)] := by simp [jsSet, jsHas]
  have hrun := runPosts_window titleRaw ip gk g t0 htitle hg ts 1 hts
  have hmain : runPosts titleRaw ip (some gk) (.ok g) (t0 :: ts) [] =
      (({ status := 200, tldr := some (normalizeTldr (jsTrim g)) } : TldrResponse) ::
        (List.range ts.length).map (fun i =>
          if 1 + 1 + i ≤ 10 then
            ({ status := 200, tldr := some (normalizeTldr (jsTrim g)) } : TldrResponse)
          else
            { status := 429, tldr := some (generateFallbackTldr (jsTrim titleRaw) ""),
              fallback := true, rateLimited := true }),
       [(ip, ⟨1 + ts.length, t0 + 60⟩)]) := by
    simp only [runPosts, hfresh, hset0, hrun]
  constructor
  · rw [hmain]
    rw [hlen]
    have hr10 : List.range 10 = [0, 1, 2, 3, 4, 5, 6, 7, 8, 9] := rfl
    rw [hr10]
    simp only [List.map_cons, List.map_nil]
    norm_num [List.replicate]
  · rw [hmain]
    have hreset : (⟨1 + ts.length, t0 + 60⟩ : RLEntry).resetSec ≤ tNext := by
      simp only []
      omega
    rw [POST_eval_reset titleRaw ip gk g [(ip, ⟨1 + ts.length, t0 + 60⟩)] tNext
      ⟨1 + ts.length, t0 + 60⟩ htitle (by simp [jsGet]) hreset hg]

/-- Witness for `c7_rate_limiter_boundary` at concrete inputs. -/
theorem c7_rate_limiter_boundary_witness :
    (runPosts "DPWH scandal" "1.2.3.4" (some "key")
        (.ok "Si Juan ay sangkot sa katiwalian.") (0 :: [1, 2, 3, 4, 5, 6, 7, 8, 9, 10]) []).1 =
      List.replicate 10
          ({ status := 200,
             tldr := some (normalizeTldr (jsTrim "Si Juan ay sangkot sa katiwalian.")) } :
            TldrResponse)
        ++ [{ status := 429,
              tldr := some (generateFallbackTldr (jsTrim "DPWH scandal") ""),
              fallback := true, rateLimited := true }] ∧
    (POST "DPWH scandal" "" "" "1.2.3.4"
        (runPosts "DPWH scandal" "1.2.3.4" (some "key")
          (.ok "Si Juan ay sangkot sa katiwalian.") (0 :: [1, 2, 3, 4, 5, 6, 7, 8, 9, 10]) []).2
        60 (some "key") (.ok "Si Juan ay sangkot sa katiwalian.")).1 =
      { status := 200,
        tldr := some (normalizeTldr (jsTrim "Si Juan ay sangkot sa katiwalian.")) } :=
  c7_rate_limiter_boundary "DPWH scandal" "1.2.3.4" "key"
    "Si Juan ay sangkot sa katiwalian." 0 60 [1, 2, 3, 4, 5, 6, 7, 8, 9, 10]
    (by decide) (by decide) (by decide) (by decide) (by decide)

/-! ## Category Classifier (`isCorruptionRelated`, RSS route)

The keyword table `UPDATED_CORRUPTION_KEYWORDS`, transcribed in the source's
object-literal order, and the scoring rules: +1 per matched keyword, +1 for
a matched multi-word phrase longer than 8 characters, +3 for a named
individual, +2 for a strong corruption term, +5 for the literal
co-occurrence of "cancel" and "nepo", and +2 for a multi-word `nepo-babies`
keyword all of whose space-separated parts occur somewhere in the text.
The `targetCategory` parameter of the source function is unused by it. -/

def CORRUPT_POLITICIANS_KEYWORDS : List String :=
  ["corrupt", "corruption", "plunder", "malversation", "kickback", "bribery",
   "ghost employee", "anomalous", "ombudsman", "sandiganbayan", "swiss bank",
   "unexplained wealth", "lifestyle check", "saln", "pork barrel", "pdaf",
   "graft", "impeachment", "plunder case", "arrested mayor", "arrested governor",
   "anti-graft", "comelec", "pcgg", "marcos wealth", "hidden assets"]

def DPWH_KEYWORDS : List String :=
  ["dpwh", "ghost project", "overpriced", "infrastructure scam", "road project",
   "bridge anomaly", "kickback", "contractor", "bid rigging", "coa audit",
   "public works", "highway corruption", "construction fraud", "fake invoice",
   "substandard materials", "build build build", "infrastructure corruption",
   "procurement anomaly", "contract irregularity", "project overrun"]

def FLOOD_CONTROL_KEYWORDS : List String :=
  ["flood control", "dike", "embankment", "drainage", "ghost project",
   "substandard", "flood mitigation", "pumping station", "river dredging",
   "flood management", "waterway", "flood infrastructure", "dam project",
   "retaining wall", "spillway", "watershed", "flood prone", "sea wall",
   "storm surge", "flood prevention"]

def NEPO_BABIES_KEYWORDS : List String :=
  ["political dynasty", "nepo baby", "nepo babies", "politician son",
   "politician daughter", "luxury car", "expensive", "lamborghini", "ferrari",
   "penthouse", "shopping spree", "instagram", "tiktok", "lavish lifestyle",
   "family wealth",
   "claudine co", "gela marasigan", "gela alonte", "vern enciso",
   "verniece enciso", "jammy cruz", "jasmine chan", "christine lim",
   "canceled nepo babies", "cancel nepo babies", "nepo baby culture",
   "political family", "dynasty politics", "inherited power", "family politics",
   "privileged youth", "political heir", "born into politics",
   "political bloodline",
   "designer", "brand new", "luxury lifestyle", "expensive taste",
   "wealthy family", "private school", "exclusive", "high-end", "premium",
   "lavish", "extravagant",
   "politician family", "mayor son", "governor daughter", "congressman son",
   "senator daughter", "luxury watch", "designer bag", "private jet", "yacht",
   "mansion", "exclusive school", "abroad vacation", "expensive jewelry",
   "brand new car", "lavish wedding", "luxury hotel", "five star",
   "first class flight"]

/-- The named individuals that carry a +3 bonus. -/
def NAME_BONUS : List String :=
  ["claudine co", "gela marasigan", "gela alonte", "vern enciso",
   "verniece enciso", "jammy cruz", "jasmine chan", "christine lim"]

/-- The strong corruption terms that carry a +2 bonus. -/
def KEY_TERMS : List String :=
  ["corruption", "plunder", "ghost project", "kickback", "malversation", "dpwh"]

/-- `keyword.split(' ')` (single-space splitting, as in JavaScript). -/
def splitOnSpaceAux : List Char → List Char → List String
  | [], acc => [String.mk acc.reverse]
  | c :: cs, acc =>
    if c == ' ' then String.mk acc.reverse :: splitOnSpaceAux cs []
    else splitOnSpaceAux cs (c :: acc)

def splitOnSpace (s : String) : List String := splitOnSpaceAux s.toList []

/-- Points contributed by one keyword through the exact-match branch. -/
def keywordPoints (contentLower keyword : String) : Nat :=
  let kw := jsLower keyword
  if containsStr contentLower kw then
    1 + (if containsStr kw " " && 8 < kw.length then 1 else 0)
      + (if NAME_BONUS.contains kw then 3 else 0)
      + (if KEY_TERMS.contains kw then 2 else 0)
  else 0

/-- The `nepo-babies`-only partial matching: +2 when a multi-word keyword
has all of its parts somewhere in the text. -/
def nepoPartialPoints (contentLower keyword : String) : Nat :=
  let kw := jsLower keyword
  let parts := splitOnSpace kw
  if 2 ≤ parts.length && parts.all (fun part => containsStr contentLower part)
  then 2 else 0

def sumPoints (contentLower : String) (keywords : List String)
    (nepoPartial : Bool) : Nat :=
  keywords.foldl
    (fun acc kw => acc + keywordPoints contentLower kw +
      (if nepoPartial then nepoPartialPoints contentLower kw else 0)) 0

/-- The four aggregate scores, in the source's key order
`(corrupt-politicians, dpwh, flood-control, nepo-babies)`. -/
def categoryScores (content : String) : Nat × Nat × Nat × Nat :=
  let contentLower := jsLower content
  let nepoBase :=
    if containsStr contentLower "cancel" && containsStr contentLower "nepo"
    then 5 else 0
  (sumPoints contentLower CORRUPT_POLITICIANS_KEYWORDS false,
   sumPoints contentLower DPWH_KEYWORDS false,
   sumPoints contentLower FLOOD_CONTROL_KEYWORDS false,
   nepoBase + sumPoints contentLower NEPO_BABIES_KEYWORDS true)

/-- The aggregate score of one category. -/
def scoreOfCat (content : String) : Category → Nat
  | .corruptPoliticians => (categoryScores content).1
  | .dpwh => (categoryScores content).2.1
  | .floodControl => (categoryScores content).2.2.1
  | .nepoBabies => (categoryScores content).2.2.2

structure DetectionResult where
  isRelevant : Bool
  detectedCategory : Category
  score : Nat
  deriving DecidableEq, Repr

/-- `isCorruptionRelated(content)`: the detected category is the FIRST key
in the object's insertion order whose score equals the maximum
(`Object.keys(...).find(...)`), with `'corrupt-politicians'` as the
(unreachable) `||` default; relevance requires a score of at least 1. -/
def isCorruptionRelated (content : String) : DetectionResult :=
  let s := categoryScores content
  let maxScore := max (max s.1 s.2.1) (max s.2.2.1 s.2.2.2)
  let detected :=
    if s.1 = maxScore then Category.corruptPoliticians
    else if s.2.1 = maxScore then Category.dpwh
    else if s.2.2.1 = maxScore then Category.floodControl
    else if s.2.2.2 = maxScore then Category.nepoBabies
    else Category.corruptPoliticians
  { isRelevant := 1 ≤ maxScore, detectedCategory := detected, score := maxScore }

set_option maxRecDepth 16000 in
/-- C8 counterexample: in `"ghost project"`, `dpwh` and `flood-control` tie
for the maximum score (the phrase is in both keyword sets), yet the
classifier returns `dpwh` — the first maximal key in insertion order — and
not `corrupt-politicians`, refuting "ties default to corrupt-politicians". -/
theorem c8_counterexample :
    (categoryScores "ghost project").2.1 = (isCorruptionRelated "ghost project").score ∧
    (categoryScores "ghost project").2.2.1 = (isCorruptionRelated "ghost project").score ∧
    (categoryScores "ghost project").1 ≠ (isCorruptionRelated "ghost project").score ∧
    (isCorruptionRelated "ghost project").detectedCategory = Category.dpwh ∧
    (isCorruptionRelated "ghost project").detectedCategory ≠
      Category.corruptPoliticians := by
  decide

/-- C8 amended: the classifier returns the maximal aggregate score, assigns
the FIRST category in the fixed order
corrupt-politicians → dpwh → flood-control → nepo-babies achieving it (so a
tie that involves `corrupt-politicians` does default to
`corrupt-politicians`), and judges the text in-domain iff the maximum score
is at least 1. -/
theorem c8_classifier_amended (content : String) :
    (isCorruptionRelated content).score =
      max (max (categoryScores content).1 (categoryScores content).2.1)
        (max (categoryScores content).2.2.1 (categoryScores content).2.2.2) ∧
    scoreOfCat content (isCorruptionRelated content).detectedCategory =
      (isCorruptionRelated content).score ∧
    (isCorruptionRelated content).isRelevant =
      decide (1 ≤ (isCorruptionRelated content).score) ∧
    ((categoryScores content).1 = (isCorruptionRelated content).score →
      (isCorruptionRelated content).detectedCategory =
        Category.corruptPoliticians) := by
  refine ⟨rfl, ?_, rfl, ?_⟩
  · simp only [isCorruptionRelated, scoreOfCat]
    split_ifs with h1 h2 h3 h4
    · exact h1
    · exact h2
    · exact h3
    · exact h4
    · omega
  · intro h
    simp only [isCorruptionRelated] at h ⊢
    rw [if_pos h]

set_option maxRecDepth 16000 in
/-- Witness for `c8_classifier_amended` at a concrete input. -/
theorem c8_classifier_amended_witness :
    scoreOfCat "corruption" (isCorruptionRelated "corruption").detectedCategory =
      (isCorruptionRelated "corruption").score ∧
    (isCorruptionRelated "corruption").detectedCategory =
      Category.corruptPoliticians :=
  ⟨(c8_classifier_amended "corruption").2.1,
   (c8_classifier_amended "corruption").2.2.2 (by decide)⟩

/-! ## Orchestrator (`GET`, `src/app/api/news/route.ts:864`)

The handler is modelled on its non-throwing execution path: every provider
call is wrapped in its own `try/catch` (errors are only logged), so the
outer `catch` that produces the 502 `status: "error"` response is reachable
only for failures outside the provider chain (e.g. request-URL parsing),
which the model treats as absent. Provider-call outcomes are explicit
arguments. -/

/-- Decimal digits of a `Nat` (structural fuel, enough at `n + 1`). -/
def natDigitsAux : Nat → Nat → List Char
  | _, 0 => []
  | n, fuel + 1 =>
    if n < 10 then [Char.ofNat (48 + n)]
    else natDigitsAux (n / 10) fuel ++ [Char.ofNat (48 + n % 10)]

def natToString (n : Nat) : String := String.mk (natDigitsAux n (n + 1))

/-- The parsed, validated query parameters (`parseParams` output). `from`
and `to` are reserved words in Lean, hence `fromB`/`toB`. -/
structure NewsParams where
  category : String
  query : Option String
  fromB : Option String
  toB : Option String
  page : Nat
  pageSize : Nat
  deriving DecidableEq, Repr

/-- JSON string escaping (the engine's keys contain no control characters,
so quote and backslash escaping suffices). -/
def jsonEscape (s : String) : String :=
  String.mk ((s.toList.map (fun c =>
    if c == '"' then ['\\', '"']
    else if c == '\\' then ['\\', '\\']
    else [c])).flatten)

def jstr (s : String) : String := "\"" ++ jsonEscape s ++ "\""

def jopt : Option String → String
  | none => "null"
  | some s => jstr s

/-- `makeKey`: `JSON.stringify` of the normalized query parameters in field
order. -/
def makeKey (p : NewsParams) : String :=
  "\x7b\"category\":" ++ jstr p.category ++ ",\"query\":" ++ jopt p.query ++
    ",\"from\":" ++ jopt p.fromB ++ ",\"to\":" ++ jopt p.toB ++
    ",\"page\":" ++ natToString p.page ++
    ",\"pageSize\":" ++ natToString p.pageSize ++ "\x7d"

/-- The `NewsResponse` payload shape. -/
structure NewsResponse where
  status : String
  totalResults : Nat
  articles : List NewsArticle
  fallback : Option Bool := none
  error : Option String := none
  providerTrace : Option (List String) := none
  deriving DecidableEq, Repr

deriving instance DecidableEq for Except

/-- The outcome of each provider call of one request, plus the environment
switches that select them (`WEB_SEARCH_PROVIDER`, key presence). -/
structure GetOutcomes where
  useGemini : Bool
  gemini : Except String (List NewsArticle)
  preferred : String
  hasTavily : Bool
  hasSerper : Bool
  tavily : Except String (List NewsArticle)
  serper : Except String (List NewsArticle)
  newsapi : Except String (List NewsArticle)
  deriving Repr

/-- `searchWithWeb`'s `tryOrder` construction: the preferred provider when
named and configured, else Tavily then Serper as available. -/
def buildTryOrder (preferred : String) (hasTavily hasSerper : Bool)
    (tav ser : Except String (List NewsArticle)) :
    List (Except String (List NewsArticle)) :=
  let fromPref :=
    (if preferred == "tavily" && hasTavily then [tav] else []) ++
    (if preferred == "serper" && hasSerper then [ser] else [])
  let base := if preferred == "" then [] else fromPref
  if base.isEmpty then
    (if hasTavily then [tav] else []) ++ (if hasSerper then [ser] else [])
  else base

/-- The provider loop of `searchWithWeb`: on success, dedupe the union and
stop at the first non-empty accumulation; on error, remember the first. -/
def webLoop : List (Except String (List NewsArticle)) → List NewsArticle →
    Option String → List NewsArticle × Option String
  | [], coll, firstError => (coll, firstError)
  | r :: rest, coll, firstError =>
    match r with
    | .ok res =>
      let c := dedupeArticles (coll ++ res)
      if c.isEmpty then webLoop rest c firstError else (c, firstError)
    | .error e => webLoop rest coll (some (firstError.getD e))

/-- `searchWithWeb`: try the web providers in order; with nothing collected,
re-throw the first error or a "no provider" error. -/
def searchWithWeb (preferred : String) (hasTavily hasSerper : Bool)
    (tav ser : Except String (List NewsArticle)) :
    Except String (List NewsArticle) :=
  let r := webLoop (buildTryOrder preferred hasTavily hasSerper tav ser) [] none
  if r.1.isEmpty then
    match r.2 with
    | some e => .error e
    | none => .error "No web search provider available or returned results."
  else .ok r.1

/-- The `GET` handler on its non-throwing path: cache lookup, the
Gemini → web → NewsAPI fallback chain (each failure only logged), sticky
cache fallback, write-through, and the always-`"ok"` payload with HTTP 200.
Returns `(payload, httpStatus, newCache)`. -/
def GET (p : NewsParams) (oc : GetOutcomes)
    (cache : List (String × CacheEntry)) (now : Nat) :
    NewsResponse × Nat × List (String × CacheEntry) :=
  let key := makeKey p
  let cached := getCached cache key now
  let st1 : List NewsArticle × List String :=
    if oc.useGemini then
      match oc.gemini with
      | .ok items =>
        if items.isEmpty then ([], [])
        else (items, ["gemini:" ++ natToString items.length])
      | .error _ => ([], [])
    else ([], [])
  let st2 :=
    if st1.1.isEmpty then
      match searchWithWeb oc.preferred oc.hasTavily oc.hasSerper oc.tavily oc.serper with
      | .ok items =>
        if items.isEmpty then st1
        else (items, st1.2 ++ ["web:" ++ natToString items.length])
      | .error _ => st1
    else st1
  let st3 :=
    if st2.1.isEmpty then
      match oc.newsapi with
      | .ok items =>
        if items.isEmpty then st2
        else (items, st2.2 ++ ["newsapi:" ++ natToString items.length])
      | .error _ => st2
    else st2
  let st4 :=
    if st3.1.isEmpty then
      match cached with
      | some e => (e.articles, st3.2 ++ ["cache:hit"])
      | none => st3
    else st3
  let cache2 := if st4.1.isEmpty then cache else setCached cache key st4.1 st4.2 now
  let payload : NewsResponse :=
    { status := "ok", totalResults := st4.1.length, articles := st4.1,
      providerTrace := some (if st4.1.isEmpty then
          (match cached with | some e => e.providerTrace | none => st4.2)
        else st4.2) }
  (payload, 200, cache2)

/-- The provider chain AS THE CLAIM STATES IT (spec §4.8): generative
search (if enabled) → web provider A → web provider B → RSS → legacy news
API, stopping at the first provider whose deduplicated output is non-empty,
with an explicit 502 `"error"` response on total exhaustion without a cache
entry. This refinement model follows the spec's words and is compared
against the code's `GET`. -/
def GETSpecChain (geminiEnabled : Bool)
    (gemini webA webB rss newsapi : Except String (List NewsArticle))
    (cached : Option CacheEntry) : NewsResponse × Nat :=
  let stages : List (String × Except String (List NewsArticle)) :=
    (if geminiEnabled then [("gemini", gemini)] else []) ++
    [("webA", webA), ("webB", webB), ("rss", rss), ("newsapi", newsapi)]
  match stages.findSome? (fun st =>
      match st.2 with
      | .ok items =>
        let d := dedupeArticles items
        if d.isEmpty then none else some (st.1, d)
      | .error _ => none) with
  | some r =>
    ({ status := "ok", totalResults := r.2.length, articles := r.2,
       providerTrace := some [r.1 ++ ":" ++ natToString r.2.length] }, 200)
  | none =>
    match cached with
    | some e =>
      ({ status := "ok", totalResults := e.articles.length,
         articles := e.articles, providerTrace := some ["cache:hit"] }, 200)
    | none =>
      ({ status := "error", totalResults := 0, articles := [],
         error := some "Service unavailable - upstream providers failed" }, 502)

/-! ## Claim C1: response on total provider exhaustion without cache -/

def c1Params : NewsParams := ⟨"all", none, none, none, 1, 20⟩

def c1Outcomes : GetOutcomes :=
  { useGemini := true, gemini := .error "Gemini API key missing",
    preferred := "", hasTavily := true, hasSerper := true,
    tavily := .error "500 Internal Server Error",
    serper := .error "500 Internal Server Error",
    newsapi := .error "NewsAPI not configured" }

/-- C1 counterexample: with every provider in the chain erroring and no
cache entry for the key, the handler still answers `status: "ok"` with
HTTP 200 and zero articles — a silent empty success, not the claimed
`"error"`/5xx response (each provider error is caught and only logged, so
the 502 branch is never reached from the chain). -/
theorem c1_counterexample :
    getCached [] (makeKey c1Params) 0 = none ∧
    (GET c1Params c1Outcomes [] 0).1.status = "ok" ∧
    (GET c1Params c1Outcomes [] 0).2.1 = 200 ∧
    (GET c1Params c1Outcomes [] 0).1.totalResults = 0 ∧
    (GET c1Params c1Outcomes [] 0).1.articles = [] := by
  decide

/-- C1 amended: whenever the Gemini stage, the web stage and the NewsAPI
stage each produce nothing (error or empty) and no cache entry exists for
the request key, the response is a silent empty success — `status: "ok"`,
HTTP 200, zero articles — and the cache is left unchanged. -/
theorem c1_exhaustion_amended (p : NewsParams) (oc : GetOutcomes)
    (cache : List (String × CacheEntry)) (now : Nat)
    (hgem : oc.useGemini = false ∨ (∃ e, oc.gemini = .error e) ∨ oc.gemini = .ok [])
    (hweb : (∃ e, searchWithWeb oc.preferred oc.hasTavily oc.hasSerper
        oc.tavily oc.serper = .error e) ∨
      searchWithWeb oc.preferred oc.hasTavily oc.hasSerper oc.tavily oc.serper = .ok [])
    (hnapi : (∃ e, oc.newsapi = .error e) ∨ oc.newsapi = .ok [])
    (hcache : getCached cache (makeKey p) now = none) :
    (GET p oc cache now).1.status = "ok" ∧
    (GET p oc cache now).2.1 = 200 ∧
    (GET p oc cache now).1.totalResults = 0 ∧
    (GET p oc cache now).1.articles = [] ∧
    (GET p oc cache now).2.2 = cache := by
  rcases hgem with h1 | ⟨e1, h1⟩ | h1 <;>
    rcases hweb with ⟨e2, h2⟩ | h2 <;>
    rcases hnapi with ⟨e3, h3⟩ | h3 <;>
    simp [GET, h1, h2, h3, hcache]

/-- Witness for `c1_exhaustion_amended` at a concrete input. -/
theorem c1_exhaustion_amended_witness :
    (GET c1Params c1Outcomes [] 0).1.status = "ok" ∧
    (GET c1Params c1Outcomes [] 0).2.1 = 200 ∧
    (GET c1Params c1Outcomes [] 0).1.totalResults = 0 ∧
    (GET c1Params c1Outcomes [] 0).1.articles = [] ∧
    (GET c1Params c1Outcomes [] 0).2.2 = [] :=
  c1_exhaustion_amended c1Params c1Outcomes [] 0
    (Or.inr (Or.inl ⟨"Gemini API key missing", rfl⟩))
    (Or.inl ⟨"500 Internal Server Error", by decide⟩)
    (Or.inl ⟨"NewsAPI not configured", rfl⟩)
    (by decide)

/-! ## Claim C2: provider priority order -/

def c2Article : NewsArticle :=
  { title := "RSS scoop on flood control", url := some "https://rappler.com/rss-scoop",
    category := .dpwh }

def c2Params : NewsParams := ⟨"dpwh", none, none, none, 1, 20⟩

def c2Outcomes : GetOutcomes :=
  { useGemini := false, gemini := .ok [],
    preferred := "", hasTavily := true, hasSerper := true,
    tavily := .error "tavily 500", serper := .error "serper 500",
    newsapi := .ok [] }

/-- C2 counterexample: the claimed chain contains an RSS stage between the
web providers and the legacy news API, but the code's chain has none. At an
input where both web providers error, RSS would return one article and
NewsAPI returns none, the chain as claimed answers with the RSS article
while the code's `GET` answers a silent empty success. -/
theorem c2_counterexample :
    (GETSpecChain false (.ok []) (.error "tavily 500") (.error "serper 500")
        (.ok [c2Article]) (.ok []) none).1.articles = [c2Article] ∧
    (GETSpecChain false (.ok []) (.error "tavily 500") (.error "serper 500")
        (.ok [c2Article]) (.ok []) none).1.providerTrace = some ["rss:1"] ∧
    (GET c2Params c2Outcomes [] 0).1.articles = [] ∧
    (GET c2Params c2Outcomes [] 0).1.status = "ok" := by
  decide

/-- C2 amended: the code's chain is generative search (if enabled) →
web-search (Tavily then Serper, by key availability and the
`WEB_SEARCH_PROVIDER` preference) → legacy news API → sticky cache, with no
RSS stage; it stops at the first stage with at least one article. Within the
web stage, if provider A returns 0 items and provider B returns a list with
non-empty deduplication, the stage's result is B's deduplicated output; and
at the orchestrator level, when the Gemini stage produces nothing and the
web stage yields a non-empty list, the response's articles are exactly that
list and `providerTrace` names only the producing stage. -/
theorem c2_fallback_order_amended :
    (∀ ser : List NewsArticle,
      dedupeArticles ser ≠ [] →
      searchWithWeb "" true true (.ok []) (.ok ser) = .ok (dedupeArticles ser)) ∧
    (∀ (p : NewsParams) (oc : GetOutcomes) (cache : List (String × CacheEntry))
        (now : Nat) (l : List NewsArticle),
      (oc.useGemini = false ∨ (∃ e, oc.gemini = .error e) ∨ oc.gemini = .ok []) →
      searchWithWeb oc.preferred oc.hasTavily oc.hasSerper oc.tavily oc.serper =
        .ok l →
      l ≠ [] →
      (GET p oc cache now).1.articles = l ∧
      (GET p oc cache now).1.providerTrace =
        some ["web:" ++ natToString l.length]) := by
  constructor
  · intro ser h
    have hne : (dedupeArticles ser).isEmpty = false := by
      cases he : (dedupeArticles ser).isEmpty
      · rfl
      · exact absurd (by simpa [List.isEmpty_iff] using he) h
    have hd0 : dedupeArticles ([] : List NewsArticle) = [] := rfl
    simp [searchWithWeb, buildTryOrder, webLoop, hd0, hne]
  · intro p oc cache now l hgem hweb hl
    have hne : l.isEmpty = false := by
      cases he : l.isEmpty
      · rfl
      · exact absurd (by simpa [List.isEmpty_iff] using he) hl
    rcases hgem with h1 | ⟨e1, h1⟩ | h1 <;>
      simp [GET, h1, hweb, hne]

/-- Witness for `c2_fallback_order_amended` at concrete inputs. -/
theorem c2_fallback_order_amended_witness :
    searchWithWeb "" true true (.ok []) (.ok [c2Article]) =
      .ok (dedupeArticles [c2Article]) ∧
    (GET c2Params
        { c2Outcomes with serper := .ok [c2Article] } [] 0).1.articles =
      dedupeArticles [c2Article] ∧
    (GET c2Params
        { c2Outcomes with serper := .ok [c2Article] } [] 0).1.providerTrace =
      some ["web:" ++ natToString (dedupeArticles [c2Article]).length] :=
  ⟨(c2_fallback_order_amended).1 [c2Article] (by decide),
   ((c2_fallback_order_amended).2 c2Params
      { c2Outcomes with serper := .ok [c2Article] } [] 0
      (dedupeArticles [c2Article]) (Or.inl rfl) (by decide) (by decide)).1,
   ((c2_fallback_order_amended).2 c2Params
      { c2Outcomes with serper := .ok [c2Article] } [] 0
      (dedupeArticles [c2Article]) (Or.inl rfl) (by decide) (by decide)).2⟩

/-! ## Claim C10 counterexample: cache-hit fallback refreshes the TTL -/

def c10Article : NewsArticle :=
  { title := "Cached story", url := some "https://rappler.com/cached-story" }

def c10Params : NewsParams := ⟨"all", none, none, none, 1, 20⟩

def c10Outcomes : GetOutcomes :=
  { useGemini := true, gemini := .error "Gemini API key missing",
    preferred := "", hasTavily := true, hasSerper := true,
    tavily := .error "500", serper := .error "500",
    newsapi := .error "NewsAPI not configured" }

def c10Cache1 : List (String × CacheEntry) :=
  setCached [] (makeKey c10Params) [c10Article] ["web:1"] 0

/-- C10 counterexample: an article produced by a live provider at time 0 is
served from the cache at time 59 999 when all providers fail — and the
handler then RE-WRITES the cache entry with the fresh timestamp 59 999, so
the same article is still served by a cache lookup at time 61 000, which is
beyond `ts + TTL` for its production time 0. Repeating this keeps articles
available from the cache indefinitely, refuting "no sequence of requests
can keep an article available from the cache past its TTL". -/
theorem c10_counterexample :
    getCached c10Cache1 (makeKey c10Params) 0 =
      some ⟨0, [c10Article], ["web:1"]⟩ ∧
    (GET c10Params c10Outcomes c10Cache1 59999).1.articles = [c10Article] ∧
    getCached (GET c10Params c10Outcomes c10Cache1 59999).2.2
        (makeKey c10Params) 61000 =
      some ⟨59999, [c10Article], ["cache:hit"]⟩ ∧
    CACHE_TTL_MS < 61000 := by
  decide

end CheeseMiss
